import Mathlib

/-!
Shallow embedding of dpark's `SimpleJob` scheduler core (`src/dpark/job.py`)
together with proofs about its bookkeeping invariants, status-update state
machine, locality-ranked pending-task lookup and timeout scan.

Modelling conventions:
* wall-clock times (`time.time()`) are modelled as integers, passed explicitly
  as a `now` argument to every entry point;
* Python lists indexed by task index become Lean `List`s accessed with `getD`
  and updated with `set`;
* Python dicts (`tidToIndex`, `pendingTasksForHost`, `host_cache`) become
  association lists where insertion conses a fresh binding in front (so
  `List.lookup`, which returns the first binding, has overwrite semantics);
* calls out to the external scheduler (`taskEnded`, `killTask`, `jobFinished`,
  `shutdown`, `requestMoreResources`) become an explicit event trace returned
  by each operation;
* `socket.gethostbyname_ex` becomes an explicit resolver function argument
  (its `except` fallback to `(host, [], [])` is part of the resolver's value);
* logging calls have no effect and are dropped.
-/

namespace Dpark

/-- Task status constants, job.py lines 9-14. -/
def TASK_STARTING : Nat := 0

/-- job.py line 10. -/
def TASK_RUNNING : Nat := 1

/-- job.py line 11. -/
def TASK_FINISHED : Nat := 2

/-- job.py line 12. -/
def TASK_FAILED : Nat := 3

/-- job.py line 13. -/
def TASK_KILLED : Nat := 4

/-- job.py line 14. -/
def TASK_LOST : Nat := 5

/-- job.py line 36: grace window for locality matches (seconds). -/
def LOCALITY_WAIT : Int := 0

/-- job.py line 37: stuck-start threshold (seconds). -/
def WAIT_FOR_RUNNING : Int := 15

/-- job.py line 38: per-task retry budget. -/
def MAX_TASK_FAILURES : Nat := 4

/-- job.py line 39: capacity units per task. -/
def CPUS_PER_TASK : Nat := 1

/-- A task descriptor: the external Task entity's mutable fields used by
job.py, plus the result of its `preferredLocations()` capability. -/
structure Task where
  id : Nat
  status : Nat
  start : Int
  host : String
  tried : Nat
  used : Int
  prefs : List String
deriving Repr, DecidableEq

instance : Inhabited Task := ⟨⟨0, 0, 0, "", 0, 0, []⟩⟩

/-- The `reason` argument of a status update.  `fetchFailed` models an
instance of `schedule.FetchFailed` (carrying its `serverUri`); every other
value (including Python `None`) is not a fetch failure. -/
inductive Reason where
  | noReason : Reason
  | fetchFailed (serverUri : String) : Reason
  | otherReason (msg : String) : Reason
deriving Repr, DecidableEq

/-- Outcome reported to `sched.taskEnded`: `Success()` or the failure reason. -/
inductive Outcome where
  | success : Outcome
  | failure (reason : Reason) : Outcome
deriving Repr, DecidableEq

/-- Calls made to the external scheduler, recorded as an event trace. -/
inductive Event where
  | taskEnded (taskId : Nat) (outcome : Outcome) : Event
  | killTask (jobId : Nat) (taskId : Nat) (tried : Nat) : Event
  | jobFinished : Event
  | shutdown : Event
  | requestMoreResources : Event
deriving Repr, DecidableEq

/-- Host-name resolution capability (`socket.gethostbyname_ex`): canonical
name, alias list, address list.  job.py lines 102-105 fall back to
`(host, [], [])` on error; that fallback is folded into the function value. -/
abbrev Resolver := String → String × List String × List String

/-- The mutable state of `SimpleJob` (job.py lines 45-76). -/
structure SimpleJob where
  jobId : Nat
  jobStart : Int
  tasks : List Task
  launched : List Bool
  finished : List Bool
  numFailures : List Nat
  blacklist : List (List String)
  tidToIndex : List (Nat × Nat)
  numTasks : Nat
  tasksLaunched : Int
  tasksFinished : Nat
  total_used : Int
  lastPreferredLaunchTime : Int
  pendingTasksForHost : List (String × List Nat)
  pendingTasksWithNoPrefs : List Nat
  allPendingTasks : List Nat
  failed : Bool
  causeOfFailure : String
  last_check : Int
  host_cache : List (String × List Nat)
deriving Repr, DecidableEq

/-- `self.pendingTasksForHost.setdefault(host, []).append(i)` on an
association list with unique keys (job.py line 90). -/
def appendAt : List (String × List Nat) → String → Nat → List (String × List Nat)
  | [], h, i => [(h, [i])]
  | (k, v) :: rest, h, i =>
    if k = h then (k, v ++ [i]) :: rest else (k, v) :: appendAt rest h i

/-- Replace `tasks[i]` by `f tasks[i]` (mutation of a task object's fields). -/
def modifyTask (s : SimpleJob) (i : Nat) (f : Task → Task) : SimpleJob :=
  { s with tasks := s.tasks.set i (f (s.tasks.getD i default)) }

/-- `addPendingTask`, job.py lines 84-91. -/
def addPendingTask (s : SimpleJob) (i : Nat) : SimpleJob :=
  let loc := (s.tasks.getD i default).prefs
  let s1 :=
    if loc = [] then
      { s with pendingTasksWithNoPrefs := s.pendingTasksWithNoPrefs ++ [i] }
    else
      loc.foldl (fun t host => { t with pendingTasksForHost := appendAt t.pendingTasksForHost host i }) s
  { s1 with allPendingTasks := s1.allPendingTasks ++ [i] }

/-- `SimpleJob.__init__`, job.py lines 45-76.  `now` is the construction
time (`time.time()`); `jobId` is the id handed out by `Job.newJobId`. -/
def mkSimpleJob (jobId : Nat) (now : Int) (tasks0 : List Task) : SimpleJob :=
  let tasks := tasks0.map (fun t => { t with tried := 0, used := 0 })
  let s0 : SimpleJob :=
    { jobId := jobId
      jobStart := now
      tasks := tasks
      launched := List.replicate tasks.length false
      finished := List.replicate tasks.length false
      numFailures := List.replicate tasks.length 0
      blacklist := List.replicate tasks.length []
      tidToIndex := []
      numTasks := tasks.length
      tasksLaunched := 0
      tasksFinished := 0
      total_used := 0
      lastPreferredLaunchTime := now
      pendingTasksForHost := []
      pendingTasksWithNoPrefs := []
      allPendingTasks := []
      failed := false
      causeOfFailure := ""
      last_check := 0
      host_cache := [] }
  (List.range tasks.length).foldl addPendingTask s0

/-- `taskEverageTime` property, job.py lines 78-82 (sic: source spelling).
The source divides floats; integer division is used in this model. -/
def taskEverageTime (s : SimpleJob) : Int :=
  if s.tasksFinished = 0 then 10
  else max (s.total_used / (s.tasksFinished : Int)) 5

/-- Concatenation of the candidate lists registered under every identity of
`host` (job.py lines 103-107): canonical name, aliases, then addresses. -/
def hostIdentityTasks (resolve : Resolver) (s : SimpleJob) (host : String) : List Nat :=
  let r := resolve host
  (([r.1] ++ r.2.1 ++ r.2.2).map
    (fun x => (List.lookup x s.pendingTasksForHost).getD [])).flatten

/-- One step of the frequency count `st[t] = st.get(t, 0) + 1`
(job.py lines 108-110) on an association-list model of the dict's
key-to-count contents: bump the first binding of `t`, appending a fresh
binding if absent.  The association list carries its bindings in
first-occurrence order; a CPython 2 dict enumerates its items in hash/slot
order instead, so the list order here models only the contents, and every
order-sensitive statement quantifies over all permutations of the bindings
(see `getPendingTasksSortedItems`). -/
def bump : List (Nat × Nat) → Nat → List (Nat × Nat)
  | [], t => [(t, 1)]
  | (k, c) :: rest, t =>
    if k = t then (k, c + 1) :: rest else (k, c) :: bump rest t

/-- Descending-count ordering on frequency pairs, used to model
`sorted(st.items(), key=itemgetter(1), reverse=True)` (job.py line 111);
Python's sort is stable and so is `List.insertionSort` with this
non-strict relation. -/
def cntGe (a b : Nat × Nat) : Prop := b.2 ≤ a.2

instance : DecidableRel cntGe := fun a b => inferInstanceAs (Decidable (b.2 ≤ a.2))

instance : IsTotal (Nat × Nat) cntGe := ⟨fun a b => le_total b.2 a.2⟩

instance : IsTrans (Nat × Nat) cntGe := ⟨fun _ _ _ h1 h2 => le_trans h2 h1⟩

/-- The sort-and-project tail of `_getPendingTasksForHost` (job.py lines
111-112) applied to an explicit enumeration `items` of the frequency dict:
`sorted(st.items(), key=itemgetter(1), reverse=True)` stably sorts whatever
enumeration `st.items()` yields, and in CPython 2 that enumeration is in
hash/slot order — not determined by the source.  Order-sensitive
properties are therefore stated for every enumeration `items` that is a
permutation of the dict's bindings. -/
def getPendingTasksSortedItems (items : List (Nat × Nat)) : List Nat :=
  (List.insertionSort cntGe items).map (fun p => p.1)

/-- `_getPendingTasksForHost`, job.py lines 101-112, with the dict
enumerated in first-occurrence order — one admissible but arbitrary choice,
fixed so the model stays executable.  CPython 2's `st.items()` enumerates
in hash/slot order, which the source does not determine; any property that
depends on the enumeration order must be established for all permutations
of the bindings (`getPendingTasksSortedItems`), not from this definition. -/
def getPendingTasksForHostCompute (resolve : Resolver) (s : SimpleJob) (host : String) : List Nat :=
  let tasks := hostIdentityTasks resolve s host
  let st := tasks.foldl bump []
  let ts := List.insertionSort cntGe st
  ts.map (fun p => p.1)

/-- `getPendingTasksForHost`, job.py lines 93-99: memoized via `host_cache`. -/
def getPendingTasksForHost (resolve : Resolver) (s : SimpleJob) (host : String) :
    List Nat × SimpleJob :=
  match List.lookup host s.host_cache with
  | some v => (v, s)
  | none =>
    let v := getPendingTasksForHostCompute resolve s host
    (v, { s with host_cache := (host, v) :: s.host_cache })

/-- `findTaskFromList`, job.py lines 114-118: first index in `l` that is not
launched, not finished and whose blacklist does not contain `host`; the
matched index gets `host` appended to its blacklist. -/
def findTaskFromList (s : SimpleJob) (l : List Nat) (host : String) :
    Option Nat × SimpleJob :=
  match l with
  | [] => (none, s)
  | i :: rest =>
    if !(s.launched.getD i false) && !(s.finished.getD i false)
        && !((s.blacklist.getD i []).contains host) then
      (some i, { s with blacklist := s.blacklist.set i ((s.blacklist.getD i []) ++ [host]) })
    else
      findTaskFromList s rest host

/-- `findTask`, job.py lines 120-131.  Returns the chosen index, the
`preferred` flag the source returns alongside it, and the updated state. -/
def findTask (resolve : Resolver) (s : SimpleJob) (host : String) (localOnly : Bool) :
    Option Nat × Bool × SimpleJob :=
  let pv := getPendingTasksForHost resolve s host
  let r1 := findTaskFromList pv.2 pv.1 host
  match r1.1 with
  | some i => (some i, true, r1.2)
  | none =>
    let r2 := findTaskFromList r1.2 r1.2.pendingTasksWithNoPrefs host
    match r2.1 with
    | some i => (some i, true, r2.2)
    | none =>
      if !localOnly then
        let r3 := findTaskFromList r2.2 r2.2.allPendingTasks host
        (r3.1, false, r3.2)
      else
        (none, false, r2.2)

/-- `slaveOffer`, job.py lines 134-153.  `availableCpus` is accepted and,
as in the source, never read. -/
def slaveOffer (resolve : Resolver) (s : SimpleJob) (host : String)
    (availableCpus : Nat) (now : Int) : SimpleJob × Option Task :=
  let localOnly := decide (now - s.lastPreferredLaunchTime < LOCALITY_WAIT)
  let r := findTask resolve s host localOnly
  match r.1 with
  | some i =>
    let s1 := r.2.2
    let task0 := s1.tasks.getD i default
    let task := { task0 with status := TASK_STARTING, start := now, host := host,
                             tried := task0.tried + 1 }
    let s2 := { s1 with
      tasks := s1.tasks.set i task
      tidToIndex := (task.id, i) :: s1.tidToIndex
      launched := s1.launched.set i true
      tasksLaunched := s1.tasksLaunched + 1
      lastPreferredLaunchTime := if r.2.1 then now else s1.lastPreferredLaunchTime }
    (s2, some task)
  | none => (r.2.2, none)

/-- Abort message format of job.py lines 233-234. -/
def abortMsg (index : Nat) : String :=
  s!"Task {index} failed more than {MAX_TASK_FAILURES} times"

/-- `abort`, job.py lines 281-286. -/
def abort (s : SimpleJob) (message : String) : SimpleJob × List Event :=
  ({ s with failed := true, causeOfFailure := message },
   [Event.jobFinished, Event.shutdown])

/-- `taskFinished`, job.py lines 181-203. -/
def taskFinished (s : SimpleJob) (now : Int) (tid tried : Nat) :
    SimpleJob × List Event :=
  match List.lookup tid s.tidToIndex with
  | none => (s, [])
  | some i =>
    let task0 := s.tasks.getD i default
    let task := { task0 with used := task0.used + (now - task0.start) }
    let s1 := { s with
      tasks := s.tasks.set i task
      finished := s.finished.set i true
      tasksFinished := s.tasksFinished + 1
      total_used := s.total_used + task.used }
    let killEvs := ((List.range task.tried).filter (fun t => t + 1 ≠ tried)).map
      (fun t => Event.killTask s1.jobId task.id (t + 1))
    let finEvs := if s1.tasksFinished = s1.numTasks then [Event.jobFinished] else []
    (s1, [Event.taskEnded task.id Outcome.success] ++ killEvs ++ finEvs)

/-- `taskLost`, job.py lines 205-234. -/
def taskLost (s : SimpleJob) (tid tried status : Nat) (reason : Reason) :
    SimpleJob × List Event :=
  match List.lookup tid s.tidToIndex with
  | none => (s, [])
  | some index =>
    let s1 := { s with launched := s.launched.set index false }
    let req := if s1.tasksLaunched = (s1.numTasks : Int)
      then [Event.requestMoreResources] else []
    let s2 := { s1 with tasksLaunched := s1.tasksLaunched - 1 }
    match reason with
    | Reason.fetchFailed _ =>
      let s3 := { s2 with
        finished := s2.finished.set index true
        tasksFinished := s2.tasksFinished + 1 }
      let evs := req
        ++ [Event.taskEnded (s2.tasks.getD index default).id (Outcome.failure reason)]
        ++ (if s3.tasksFinished = s3.numTasks then [Event.jobFinished] else [])
      (s3, evs)
    | _ =>
      if status = TASK_FAILED ∨ status = TASK_LOST then
        let nf := s2.numFailures.getD index 0 + 1
        let s3 := { s2 with numFailures := s2.numFailures.set index nf }
        if nf > MAX_TASK_FAILURES then
          let r := abort s3 (abortMsg index)
          (r.1, req ++ r.2)
        else
          (s3, req)
      else
        (s2, req)

/-- `statusUpdate`, job.py lines 155-179.  The trailing
`task.start = time.time()` on line 179 runs on every processed update,
including after `taskLost` returns from its fetch-failure branch. -/
def statusUpdate (s : SimpleJob) (now : Int) (tid tried status : Nat)
    (reason : Reason) : SimpleJob × List Event :=
  match List.lookup tid s.tidToIndex with
  | none => (s, [])
  | some i =>
    if s.finished.getD i false then (s, [])
    else
      let sa := modifyTask s i (fun t => { t with status := status })
      let sb :=
        if !(sa.launched.getD i false) then
          { sa with launched := sa.launched.set i true, tasksLaunched := sa.tasksLaunched + 1 }
        else sa
      let r :=
        if status = TASK_FINISHED then taskFinished sb now tid tried
        else if status = TASK_LOST ∨ status = TASK_FAILED ∨ status = TASK_KILLED then
          taskLost sb tid tried status reason
        else (sb, [])
      (modifyTask r.1 i (fun t => { t with start := now }), r.2)

/-- One iteration of the stuck-start loop of `check_task_timeout`
(job.py lines 247-254). -/
def pass1Step (now : Int) (t : SimpleJob) (i : Nat) : SimpleJob :=
  let task := t.tasks.getD i default
  if t.launched.getD i false && task.status == TASK_STARTING
      && decide (task.start + WAIT_FOR_RUNNING < now) then
    { t with launched := t.launched.set i false, tasksLaunched := t.tasksLaunched - 1 }
  else t

/-- Pass 1 of `check_task_timeout` (job.py lines 247-254): reclaim launched
tasks stuck in `TASK_STARTING` for more than `WAIT_FOR_RUNNING` seconds. -/
def timeoutPass1 (now : Int) (s : SimpleJob) : SimpleJob :=
  (List.range s.numTasks).foldl (pass1Step now) s

/-- Lexicographic order on `(task.start, index)` pairs, modelling the tuple
comparison in `sorted((task.start, i, task) ...)` (job.py lines 258-260);
the third tuple component is never compared because indices are distinct. -/
def startIdxLe (a b : Int × Nat) : Prop := a.1 < b.1 ∨ (a.1 = b.1 ∧ a.2 ≤ b.2)

instance : DecidableRel startIdxLe := fun a b =>
  inferInstanceAs (Decidable (a.1 < b.1 ∨ (a.1 = b.1 ∧ a.2 ≤ b.2)))

/-- The launched-and-unfinished candidates of pass 2, as `(start, index)`
pairs in index order (job.py lines 258-260 before sorting). -/
def stragglerCandidates (s : SimpleJob) : List (Int × Nat) :=
  ((List.range s.tasks.length).filter
      (fun i => s.launched.getD i false && !(s.finished.getD i false))).map
    (fun i => ((s.tasks.getD i default).start, i))

/-- The loop body of pass 2 (job.py lines 261-278): walk the candidates in
sorted order; re-submit stragglers within budget, abort beyond it, and stop
at the first non-straggler. -/
def stragglerLoop (now avg : Int) : List (Int × Nat) → SimpleJob → SimpleJob × List Event
  | [], s => (s, [])
  | (_, idx) :: rest, s =>
    let task := s.tasks.getD idx default
    let used := now - task.start
    if used > avg * ((task.tried : Int) + 1) ∧ used > 30 then
      if task.tried ≤ MAX_TASK_FAILURES then
        let s1 := modifyTask s idx (fun t => { t with used := t.used + used, start := now })
        let s2 := { s1 with launched := s1.launched.set idx false,
                            tasksLaunched := s1.tasksLaunched - 1 }
        stragglerLoop now avg rest s2
      else
        let r := abort s (s!"task timeout")
        let r2 := stragglerLoop now avg rest r.1
        (r2.1, r.2 ++ r2.2)
    else
      (s, [])

/-- `check_task_timeout`, job.py lines 236-279. -/
def check_task_timeout (s : SimpleJob) (now : Int) : SimpleJob × Bool × List Event :=
  if s.last_check + 5 > now then (s, false, [])
  else
    let s0 := { s with last_check := now }
    let n := s0.launched.count true
    let s1 := if s0.tasksLaunched ≠ (n : Int) then { s0 with tasksLaunched := (n : Int) } else s0
    let s2 := timeoutPass1 now s1
    let r :=
      if s2.tasksFinished > s2.numTasks / 3 then
        let avg := taskEverageTime s2
        let cand := List.insertionSort startIdxLe (stragglerCandidates s2)
        stragglerLoop now avg cand s2
      else (s2, [])
    (r.1, decide (r.1.tasksLaunched < (n : Int)), r.2)

/-! ### List helper lemmas -/

theorem getD_set_self {α : Type} (l : List α) (i : Nat) (v d : α) (h : i < l.length) :
    (l.set i v).getD i d = v := by
  induction l generalizing i with
  | nil => simp at h
  | cons x xs ih =>
    cases i with
    | zero => rfl
    | succ j => exact ih j (by simpa using h)

theorem getD_set_ne {α : Type} (l : List α) {i j : Nat} (v d : α) (h : i ≠ j) :
    (l.set i v).getD j d = l.getD j d := by
  induction l generalizing i j with
  | nil => rfl
  | cons x xs ih =>
    cases i with
    | zero => cases j with
      | zero => exact absurd rfl h
      | succ j2 => rfl
    | succ i2 => cases j with
      | zero => rfl
      | succ j2 => exact ih (fun hc => h (by rw [hc]))

theorem getD_set_false_mono (l : List Bool) (i j : Nat)
    (h : (l.set i false).getD j false = true) : l.getD j false = true := by
  by_cases hij : i = j
  · subst hij
    by_cases hl : i < l.length
    · rw [getD_set_self l i false false hl] at h; exact absurd h (by simp)
    · rwa [List.set_eq_of_length_le (Nat.le_of_not_lt hl)] at h
  · rwa [getD_set_ne l false false hij] at h

theorem count_set_true (l : List Bool) (i : Nat) (h : i < l.length)
    (hf : l.getD i false = false) :
    (l.set i true).count true = l.count true + 1 := by
  induction l generalizing i with
  | nil => simp at h
  | cons x xs ih =>
    cases i with
    | zero =>
      cases x with
      | false => simp [List.count_cons]
      | true => simp at hf
    | succ j =>
      have := ih j (by simpa using h) (by simpa using hf)
      simp only [List.set_cons_succ, List.count_cons, this]
      omega

theorem count_set_false (l : List Bool) (i : Nat) (h : i < l.length)
    (ht : l.getD i false = true) :
    l.count true = (l.set i false).count true + 1 := by
  induction l generalizing i with
  | nil => simp at h
  | cons x xs ih =>
    cases i with
    | zero =>
      cases x with
      | true => simp [List.count_cons]
      | false => simp at ht
    | succ j =>
      have := ih j (by simpa using h) (by simpa using ht)
      simp only [List.set_cons_succ, List.count_cons, this]
      omega

theorem foldl_inv {α β : Type} (P : α → Prop) (step : α → β → α) (l : List β)
    (hstep : ∀ a b, b ∈ l → P a → P (step a b)) (a : α) (h : P a) :
    P (l.foldl step a) := by
  induction l generalizing a with
  | nil => exact h
  | cons x xs ih =>
    exact ih (fun a2 b hb h2 => hstep a2 b (List.mem_cons_of_mem x hb) h2)
      (step a x) (hstep a x (List.mem_cons_self x xs) h)

/-! ### Frame lemmas: which fields each helper can touch -/

theorem findTaskFromList_frame (s : SimpleJob) (l : List Nat) (host : String) :
    ∃ b, (findTaskFromList s l host).2 = { s with blacklist := b } ∧
      b.length = s.blacklist.length := by
  induction l with
  | nil => exact ⟨s.blacklist, rfl, rfl⟩
  | cons i rest ih =>
    rw [show findTaskFromList s (i :: rest) host
        = if !(s.launched.getD i false) && !(s.finished.getD i false)
            && !((s.blacklist.getD i []).contains host) then
            (some i, { s with blacklist := s.blacklist.set i ((s.blacklist.getD i []) ++ [host]) })
          else findTaskFromList s rest host from rfl]
    by_cases hc : (!s.launched.getD i false && !s.finished.getD i false
        && !(s.blacklist.getD i []).contains host) = true
    · rw [if_pos hc]
      exact ⟨s.blacklist.set i (s.blacklist.getD i [] ++ [host]), rfl, by simp⟩
    · rw [if_neg hc]
      exact ih

theorem findTaskFromList_some (s : SimpleJob) (l : List Nat) (host : String) (i : Nat)
    (h : (findTaskFromList s l host).1 = some i) :
    i ∈ l ∧ s.launched.getD i false = false ∧ s.finished.getD i false = false := by
  induction l with
  | nil => simp [findTaskFromList] at h
  | cons j rest ih =>
    rw [show findTaskFromList s (j :: rest) host
        = if !(s.launched.getD j false) && !(s.finished.getD j false)
            && !((s.blacklist.getD j []).contains host) then
            (some j, { s with blacklist := s.blacklist.set j ((s.blacklist.getD j []) ++ [host]) })
          else findTaskFromList s rest host from rfl] at h
    by_cases hc : (!s.launched.getD j false && !s.finished.getD j false
        && !(s.blacklist.getD j []).contains host) = true
    · rw [if_pos hc] at h
      cases h
      simp only [Bool.and_eq_true, Bool.not_eq_true'] at hc
      exact ⟨List.mem_cons_self _ _, hc.1.1, hc.1.2⟩
    · rw [if_neg (by simpa using hc)] at h
      obtain ⟨hm, h1, h2⟩ := ih h
      exact ⟨List.mem_cons_of_mem j hm, h1, h2⟩

theorem getPendingTasksForHost_frame (resolve : Resolver) (s : SimpleJob) (host : String) :
    ∃ hc, (getPendingTasksForHost resolve s host).2 = { s with host_cache := hc } := by
  unfold getPendingTasksForHost
  cases hl : List.lookup host s.host_cache with
  | some v => exact ⟨s.host_cache, by simp [hl]⟩
  | none =>
    exact ⟨(host, getPendingTasksForHostCompute resolve s host) :: s.host_cache, by simp [hl]⟩

theorem findTask_frame (resolve : Resolver) (s : SimpleJob) (host : String) (localOnly : Bool) :
    ∃ hc b, (findTask resolve s host localOnly).2.2 = { s with host_cache := hc, blacklist := b } ∧
      b.length = s.blacklist.length := by
  obtain ⟨hc, hhc⟩ := getPendingTasksForHost_frame resolve s host
  obtain ⟨b1, hb1, hlen1⟩ := findTaskFromList_frame (getPendingTasksForHost resolve s host).2
    (getPendingTasksForHost resolve s host).1 host
  have hb1' : (findTaskFromList (getPendingTasksForHost resolve s host).2
      (getPendingTasksForHost resolve s host).1 host).2
      = { s with host_cache := hc, blacklist := b1 } := by
    rw [hb1, hhc]
  have hlen1' : b1.length = s.blacklist.length := by rw [hlen1, hhc]
  simp only [findTask]
  rw [hb1']
  cases h1 : (findTaskFromList (getPendingTasksForHost resolve s host).2
      (getPendingTasksForHost resolve s host).1 host).1 with
  | some i => exact ⟨hc, b1, rfl, hlen1'⟩
  | none =>
    obtain ⟨b2, hb2, hlen2⟩ := findTaskFromList_frame
      { s with host_cache := hc, blacklist := b1 }
      ({ s with host_cache := hc, blacklist := b1 } : SimpleJob).pendingTasksWithNoPrefs host
    have hb2' : (findTaskFromList { s with host_cache := hc, blacklist := b1 }
        ({ s with host_cache := hc, blacklist := b1 } : SimpleJob).pendingTasksWithNoPrefs host).2
        = { s with host_cache := hc, blacklist := b2 } := hb2
    have hlen2' : b2.length = s.blacklist.length := by
      rw [hlen2]; exact hlen1'
    rw [hb2']
    cases h2 : (findTaskFromList { s with host_cache := hc, blacklist := b1 }
        ({ s with host_cache := hc, blacklist := b1 } : SimpleJob).pendingTasksWithNoPrefs host).1 with
    | some i => exact ⟨hc, b2, rfl, hlen2'⟩
    | none =>
      cases hlo : localOnly with
      | true => exact ⟨hc, b2, rfl, hlen2'⟩
      | false =>
        obtain ⟨b3, hb3, hlen3⟩ := findTaskFromList_frame
          { s with host_cache := hc, blacklist := b2 }
          ({ s with host_cache := hc, blacklist := b2 } : SimpleJob).allPendingTasks host
        have hb3' : (findTaskFromList { s with host_cache := hc, blacklist := b2 }
            ({ s with host_cache := hc, blacklist := b2 } : SimpleJob).allPendingTasks host).2
            = { s with host_cache := hc, blacklist := b3 } := hb3
        rw [hb3']
        refine ⟨hc, b3, rfl, ?_⟩
        rw [hlen3]; exact hlen2'

theorem pass1_fold_frame (now : Int) (l : List Nat) (s : SimpleJob) :
    ∃ lch tl, l.foldl (pass1Step now) s = { s with launched := lch, tasksLaunched := tl } ∧
      lch.length = s.launched.length ∧
      (∀ j, lch.getD j false = true → s.launched.getD j false = true) := by
  induction l generalizing s with
  | nil => exact ⟨s.launched, s.tasksLaunched, rfl, rfl, fun _ h => h⟩
  | cons i rest ih =>
    rw [List.foldl_cons]
    by_cases hc : (s.launched.getD i false && (s.tasks.getD i default).status == TASK_STARTING
        && decide ((s.tasks.getD i default).start + WAIT_FOR_RUNNING < now)) = true
    · have hstep : pass1Step now s i
          = { s with launched := s.launched.set i false, tasksLaunched := s.tasksLaunched - 1 } := by
        unfold pass1Step
        rw [if_pos hc]
      rw [hstep]
      obtain ⟨lch, tl, heq, hlen, hmono⟩ := ih
        { s with launched := s.launched.set i false, tasksLaunched := s.tasksLaunched - 1 }
      refine ⟨lch, tl, heq, ?_, ?_⟩
      · simpa using hlen
      · intro j hj
        exact getD_set_false_mono s.launched i j (hmono j hj)
    · have hstep : pass1Step now s i = s := by
        unfold pass1Step
        rw [if_neg hc]
      rw [hstep]
      exact ih s

theorem timeoutPass1_frame (now : Int) (s : SimpleJob) :
    ∃ l tl, timeoutPass1 now s = { s with launched := l, tasksLaunched := tl } ∧
      l.length = s.launched.length ∧
      (∀ j, l.getD j false = true → s.launched.getD j false = true) := by
  unfold timeoutPass1
  exact pass1_fold_frame now (List.range s.numTasks) s

theorem stragglerLoop_frame (now avg : Int) (cand : List (Int × Nat)) (s : SimpleJob) :
    ∃ tk l tl f c, (stragglerLoop now avg cand s).1 =
      { s with tasks := tk, launched := l, tasksLaunched := tl,
               failed := f, causeOfFailure := c } ∧
      l.length = s.launched.length ∧ tk.length = s.tasks.length ∧
      (∀ j, l.getD j false = true → s.launched.getD j false = true) := by
  induction cand generalizing s with
  | nil =>
    exact ⟨s.tasks, s.launched, s.tasksLaunched, s.failed, s.causeOfFailure,
      rfl, rfl, rfl, fun _ h => h⟩
  | cons p rest ih =>
    obtain ⟨st, idx⟩ := p
    simp only [stragglerLoop]
    by_cases hcond : now - (s.tasks.getD idx default).start >
        avg * (((s.tasks.getD idx default).tried : Int) + 1) ∧
        now - (s.tasks.getD idx default).start > 30
    · rw [if_pos hcond]
      by_cases hb : (s.tasks.getD idx default).tried ≤ MAX_TASK_FAILURES
      · rw [if_pos hb]
        obtain ⟨tk, l, tl, f, c, heq, hlen, htlen, hmono⟩ := ih
          { s with
            tasks := s.tasks.set idx
              { s.tasks.getD idx default with
                used := (s.tasks.getD idx default).used
                  + (now - (s.tasks.getD idx default).start),
                start := now }
            launched := s.launched.set idx false
            tasksLaunched := s.tasksLaunched - 1 }
        refine ⟨tk, l, tl, f, c, heq, ?_, ?_, ?_⟩
        · simpa using hlen
        · simpa using htlen
        · intro j hj
          exact getD_set_false_mono s.launched idx j (by simpa using hmono j hj)
      · rw [if_neg hb]
        obtain ⟨tk, l, tl, f, c, heq, hlen, htlen, hmono⟩ := ih
          { s with failed := true, causeOfFailure := s!"task timeout" }
        exact ⟨tk, l, tl, f, c, heq, by simpa using hlen, by simpa using htlen,
          fun j hj => by simpa using hmono j hj⟩
    · rw [if_neg hcond]
      exact ⟨s.tasks, s.launched, s.tasksLaunched, s.failed, s.causeOfFailure, rfl, rfl, rfl,
        fun _ h => h⟩

theorem stragglerPhase_frame (now : Int) (t : SimpleJob) :
    ∃ tk l tl f c,
      (if t.tasksFinished > t.numTasks / 3 then
        stragglerLoop now (taskEverageTime t) (List.insertionSort startIdxLe (stragglerCandidates t)) t
      else (t, [])).1
      = { t with tasks := tk, launched := l, tasksLaunched := tl,
                 failed := f, causeOfFailure := c } ∧
      l.length = t.launched.length ∧ tk.length = t.tasks.length ∧
      (∀ j, l.getD j false = true → t.launched.getD j false = true) := by
  by_cases hp : t.tasksFinished > t.numTasks / 3
  · rw [if_pos hp]
    exact stragglerLoop_frame now (taskEverageTime t)
      (List.insertionSort startIdxLe (stragglerCandidates t)) t
  · rw [if_neg hp]
    exact ⟨t.tasks, t.launched, t.tasksLaunched, t.failed, t.causeOfFailure, rfl, rfl, rfl,
      fun _ h => h⟩

/-- Master decomposition of a non-rate-limited `check_task_timeout` call:
only `last_check`, `tasks`, `launched`, `tasksLaunched`, `failed` and
`causeOfFailure` can change, lengths are preserved, and `launched` flags are
only ever cleared, never set. -/
theorem check_task_timeout_frame (s : SimpleJob) (now : Int)
    (h : ¬ s.last_check + 5 > now) :
    ∃ tk l tl f c,
      (check_task_timeout s now).1 =
        { s with last_check := now, tasks := tk, launched := l, tasksLaunched := tl,
                 failed := f, causeOfFailure := c } ∧
      l.length = s.launched.length ∧ tk.length = s.tasks.length ∧
      (∀ j, l.getD j false = true → s.launched.getD j false = true) := by
  unfold check_task_timeout
  rw [if_neg h]
  dsimp only []
  by_cases hrep : s.tasksLaunched ≠ (List.count true s.launched : Int)
  · rw [if_pos hrep]
    obtain ⟨l1, tl1, hp1, hlen1, hm1⟩ := timeoutPass1_frame now
      { s with last_check := now, tasksLaunched := (List.count true s.launched : Int) }
    rw [hp1]
    obtain ⟨tk, l, tl, f, c, hq, hlen, htlen, hmono⟩ := stragglerPhase_frame now
      { s with last_check := now, launched := l1, tasksLaunched := tl1 }
    refine ⟨tk, l, tl, f, c, hq, ?_, ?_, ?_⟩
    · rw [hlen]; simpa using hlen1
    · simpa using htlen
    · intro j hj
      have h2 := hmono j hj
      exact hm1 j (by simpa using h2)
  · rw [if_neg hrep]
    obtain ⟨l1, tl1, hp1, hlen1, hm1⟩ := timeoutPass1_frame now { s with last_check := now }
    rw [hp1]
    obtain ⟨tk, l, tl, f, c, hq, hlen, htlen, hmono⟩ := stragglerPhase_frame now
      { s with last_check := now, launched := l1, tasksLaunched := tl1 }
    refine ⟨tk, l, tl, f, c, hq, ?_, ?_, ?_⟩
    · rw [hlen]; simpa using hlen1
    · simpa using htlen
    · intro j hj
      have h2 := hmono j hj
      exact hm1 j (by simpa using h2)

/-! ### Claim C9 -/

/-- C9: `slaveOffer` returns at most one task per call (`tasksLaunched` grows
by at most one), and two calls that differ only in the `availableCpus`
capacity argument produce identical results and identical state changes:
the capacity value has no influence whatsoever. -/
theorem claim_C9_capacity_noninterference (resolve : Resolver) (s : SimpleJob)
    (host : String) (c1 c2 : Nat) (now : Int) :
    slaveOffer resolve s host c1 now = slaveOffer resolve s host c2 now ∧
    (slaveOffer resolve s host c1 now).1.tasksLaunched ≤ s.tasksLaunched + 1 := by
  refine ⟨rfl, ?_⟩
  obtain ⟨hc, b, hf, _⟩ := findTask_frame resolve s host
    (decide (now - s.lastPreferredLaunchTime < LOCALITY_WAIT))
  unfold slaveOffer
  dsimp only []
  cases h1 : (findTask resolve s host
      (decide (now - s.lastPreferredLaunchTime < LOCALITY_WAIT))).1 with
  | some i => simp [hf]
  | none => simp [hf]

/-! ### Claim C8 -/

/-- C8: if less than 5 seconds have elapsed since the recorded last check,
`check_task_timeout` returns `False` and changes nothing at all (not even
`last_check`); otherwise it records `now` as the new `last_check` and
proceeds. -/
theorem claim_C8_timeout_rate_limit (s : SimpleJob) (now : Int) :
    (s.last_check + 5 > now → check_task_timeout s now = (s, false, [])) ∧
    (¬ s.last_check + 5 > now → (check_task_timeout s now).1.last_check = now) := by
  constructor
  · intro h
    unfold check_task_timeout
    rw [if_pos h]
  · intro h
    obtain ⟨tk, l, tl, f, c, heq, _, _, _⟩ := check_task_timeout_frame s now h
    rw [heq]

theorem claim_C8_timeout_rate_limit_witness :
    check_task_timeout (mkSimpleJob 1 0 []) 3 = (mkSimpleJob 1 0 [], false, []) ∧
    (check_task_timeout (mkSimpleJob 1 0 []) 10).1.last_check = 10 :=
  ⟨(claim_C8_timeout_rate_limit (mkSimpleJob 1 0 []) 3).1 (by decide),
   (claim_C8_timeout_rate_limit (mkSimpleJob 1 0 []) 10).2 (by decide)⟩

/-! ### Claim C10 -/

/-- C10: every `check_task_timeout` call leaves `finished`, `tasksFinished`,
`numFailures`, `blacklist` and `tidToIndex` unchanged, and only ever clears
`launched` flags (never sets one); in particular a straggler re-submission
is never counted as a failure. -/
theorem claim_C10_timeout_frame (s : SimpleJob) (now : Int) :
    (check_task_timeout s now).1.finished = s.finished ∧
    (check_task_timeout s now).1.tasksFinished = s.tasksFinished ∧
    (check_task_timeout s now).1.numFailures = s.numFailures ∧
    (check_task_timeout s now).1.blacklist = s.blacklist ∧
    (check_task_timeout s now).1.tidToIndex = s.tidToIndex ∧
    (∀ j, (check_task_timeout s now).1.launched.getD j false = true →
      s.launched.getD j false = true) := by
  by_cases h : s.last_check + 5 > now
  · have heq : check_task_timeout s now = (s, false, []) := by
      unfold check_task_timeout
      rw [if_pos h]
    rw [heq]
    exact ⟨rfl, rfl, rfl, rfl, rfl, fun _ hj => hj⟩
  · obtain ⟨tk, l, tl, f, c, heq, _, _, hmono⟩ := check_task_timeout_frame s now h
    rw [heq]
    exact ⟨rfl, rfl, rfl, rfl, rfl, fun j hj => hmono j hj⟩

/-! ### Characterizations of the status-update state machine -/

/-- The state after job.py line 167 (`task.status = status`) when the index
was already launched. -/
def withStatus (s : SimpleJob) (i status : Nat) : SimpleJob :=
  { s with tasks := s.tasks.set i { s.tasks.getD i default with status := status } }

/-- The state after job.py lines 167-171 when the index was not launched:
the defensive relaunch repair also fires. -/
def withStatusLaunch (s : SimpleJob) (i status : Nat) : SimpleJob :=
  { s with
    tasks := s.tasks.set i { s.tasks.getD i default with status := status }
    launched := s.launched.set i true
    tasksLaunched := s.tasksLaunched + 1 }

theorem statusUpdate_unknown (s : SimpleJob) (now : Int) (tid tried status : Nat)
    (reason : Reason) (h : List.lookup tid s.tidToIndex = none) :
    statusUpdate s now tid tried status reason = (s, []) := by
  unfold statusUpdate
  rw [h]

theorem statusUpdate_already_finished (s : SimpleJob) (now : Int) (tid tried status : Nat)
    (reason : Reason) (i : Nat) (h : List.lookup tid s.tidToIndex = some i)
    (hf : s.finished.getD i false = true) :
    statusUpdate s now tid tried status reason = (s, []) := by
  unfold statusUpdate
  rw [h]
  dsimp only []
  rw [if_pos hf]

theorem statusUpdate_launched_eq (s : SimpleJob) (now : Int) (tid tried status : Nat)
    (reason : Reason) (i : Nat) (h : List.lookup tid s.tidToIndex = some i)
    (hf : s.finished.getD i false = false) (hl : s.launched.getD i false = true) :
    statusUpdate s now tid tried status reason =
      (modifyTask
        (if status = TASK_FINISHED then
          taskFinished (withStatus s i status) now tid tried
        else if status = TASK_LOST ∨ status = TASK_FAILED ∨ status = TASK_KILLED then
          taskLost (withStatus s i status) tid tried status reason
        else (withStatus s i status, [])).1
        i (fun t => { t with start := now }),
       (if status = TASK_FINISHED then
          taskFinished (withStatus s i status) now tid tried
        else if status = TASK_LOST ∨ status = TASK_FAILED ∨ status = TASK_KILLED then
          taskLost (withStatus s i status) tid tried status reason
        else (withStatus s i status, [])).2) := by
  unfold statusUpdate
  rw [h]
  dsimp only [modifyTask]
  rw [if_neg (by rw [hf]; exact Bool.false_ne_true), hl]
  rw [if_neg (show ¬((!true) = true) by simp)]
  dsimp only [withStatus]

theorem statusUpdate_unlaunched_eq (s : SimpleJob) (now : Int) (tid tried status : Nat)
    (reason : Reason) (i : Nat) (h : List.lookup tid s.tidToIndex = some i)
    (hf : s.finished.getD i false = false) (hl : s.launched.getD i false = false) :
    statusUpdate s now tid tried status reason =
      (modifyTask
        (if status = TASK_FINISHED then
          taskFinished (withStatusLaunch s i status) now tid tried
        else if status = TASK_LOST ∨ status = TASK_FAILED ∨ status = TASK_KILLED then
          taskLost (withStatusLaunch s i status) tid tried status reason
        else (withStatusLaunch s i status, [])).1
        i (fun t => { t with start := now }),
       (if status = TASK_FINISHED then
          taskFinished (withStatusLaunch s i status) now tid tried
        else if status = TASK_LOST ∨ status = TASK_FAILED ∨ status = TASK_KILLED then
          taskLost (withStatusLaunch s i status) tid tried status reason
        else (withStatusLaunch s i status, [])).2) := by
  unfold statusUpdate
  rw [h]
  dsimp only [modifyTask]
  rw [if_neg (by rw [hf]; exact Bool.false_ne_true), hl]
  rw [if_pos (show (!false) = true by simp)]
  dsimp only [withStatusLaunch]

theorem taskFinished_eq (s : SimpleJob) (now : Int) (tid tried : Nat) (i : Nat)
    (h : List.lookup tid s.tidToIndex = some i) :
    taskFinished s now tid tried =
      ({ s with
          tasks := s.tasks.set i { s.tasks.getD i default with
            used := (s.tasks.getD i default).used + (now - (s.tasks.getD i default).start) }
          finished := s.finished.set i true
          tasksFinished := s.tasksFinished + 1
          total_used := s.total_used
            + ((s.tasks.getD i default).used + (now - (s.tasks.getD i default).start)) },
       [Event.taskEnded (s.tasks.getD i default).id Outcome.success]
        ++ ((List.range (s.tasks.getD i default).tried).filter (fun t => t + 1 ≠ tried)).map
            (fun t => Event.killTask s.jobId (s.tasks.getD i default).id (t + 1))
        ++ (if s.tasksFinished + 1 = s.numTasks then [Event.jobFinished] else [])) := by
  unfold taskFinished
  rw [h]

theorem taskLost_fetch_eq (s : SimpleJob) (tid tried status : Nat) (uri : String) (i : Nat)
    (h : List.lookup tid s.tidToIndex = some i) :
    taskLost s tid tried status (Reason.fetchFailed uri) =
      ({ s with
          launched := s.launched.set i false
          tasksLaunched := s.tasksLaunched - 1
          finished := s.finished.set i true
          tasksFinished := s.tasksFinished + 1 },
       (if s.tasksLaunched = (s.numTasks : Int) then [Event.requestMoreResources] else [])
        ++ [Event.taskEnded (s.tasks.getD i default).id
              (Outcome.failure (Reason.fetchFailed uri))]
        ++ (if s.tasksFinished + 1 = s.numTasks then [Event.jobFinished] else [])) := by
  unfold taskLost
  rw [h]

theorem taskLost_killed_eq (s : SimpleJob) (tid tried : Nat) (reason : Reason) (i : Nat)
    (h : List.lookup tid s.tidToIndex = some i)
    (hnf : ∀ uri, reason ≠ Reason.fetchFailed uri) :
    taskLost s tid tried TASK_KILLED reason =
      ({ s with launched := s.launched.set i false, tasksLaunched := s.tasksLaunched - 1 },
       if s.tasksLaunched = (s.numTasks : Int) then [Event.requestMoreResources] else []) := by
  unfold taskLost
  rw [h]
  cases reason with
  | fetchFailed uri => exact absurd rfl (hnf uri)
  | noReason =>
    dsimp only []
    rw [if_neg (by decide)]
  | otherReason m =>
    dsimp only []
    rw [if_neg (by decide)]

theorem taskLost_failure_eq (s : SimpleJob) (tid tried status : Nat) (reason : Reason) (i : Nat)
    (h : List.lookup tid s.tidToIndex = some i)
    (hnf : ∀ uri, reason ≠ Reason.fetchFailed uri)
    (hst : status = TASK_FAILED ∨ status = TASK_LOST) :
    taskLost s tid tried status reason =
      (if s.numFailures.getD i 0 + 1 > MAX_TASK_FAILURES then
        ({ s with
            launched := s.launched.set i false
            tasksLaunched := s.tasksLaunched - 1
            numFailures := s.numFailures.set i (s.numFailures.getD i 0 + 1)
            failed := true
            causeOfFailure := abortMsg i },
         (if s.tasksLaunched = (s.numTasks : Int) then [Event.requestMoreResources] else [])
          ++ [Event.jobFinished, Event.shutdown])
      else
        ({ s with
            launched := s.launched.set i false
            tasksLaunched := s.tasksLaunched - 1
            numFailures := s.numFailures.set i (s.numFailures.getD i 0 + 1) },
         if s.tasksLaunched = (s.numTasks : Int) then [Event.requestMoreResources] else [])) := by
  unfold taskLost
  rw [h]
  cases reason with
  | fetchFailed uri => exact absurd rfl (hnf uri)
  | noReason =>
    dsimp only []
    rw [if_pos hst]
    by_cases hnum : s.numFailures.getD i 0 + 1 > MAX_TASK_FAILURES
    · rw [if_pos hnum, if_pos hnum]
      rfl
    · rw [if_neg hnum, if_neg hnum]
  | otherReason m =>
    dsimp only []
    rw [if_pos hst]
    by_cases hnum : s.numFailures.getD i 0 + 1 > MAX_TASK_FAILURES
    · rw [if_pos hnum, if_pos hnum]
      rfl
    · rw [if_neg hnum, if_neg hnum]

/-! ### Concrete fixtures used by witnesses and counterexamples -/

/-- Resolver with no aliasing: every host is its own sole identity
(the `except` fallback of job.py lines 104-105). -/
def noResolver : Resolver := fun h => (h, [], [])

/-- A fresh task descriptor with the given id and no preferred locations. -/
def mkTask (n : Nat) : Task :=
  { id := n, status := 0, start := 0, host := "", tried := 0, used := 0, prefs := [] }

/-- Two no-preference tasks. -/
def jobA : SimpleJob := mkSimpleJob 1 0 [mkTask 10, mkTask 11]

/-- `jobA` after launching task 0 (attempt id 10) on hostA at time 1. -/
def jobA1 : SimpleJob := (slaveOffer noResolver jobA "hostA" 1 1).1

/-- `jobA1` after task 0 finished at time 2. -/
def jobA2 : SimpleJob := (statusUpdate jobA1 2 10 1 TASK_FINISHED Reason.noReason).1

/-- `jobA2` after launching task 1 (attempt id 11) on hostB at time 3. -/
def jobA3 : SimpleJob := (slaveOffer noResolver jobA2 "hostB" 1 3).1

/-- One no-preference task. -/
def jobB : SimpleJob := mkSimpleJob 2 0 [mkTask 20]

/-- `jobB` after launching task 0 (attempt id 20) on hostA at time 1. -/
def jobB1 : SimpleJob := (slaveOffer noResolver jobB "hostA" 1 1).1

/-- `jobB1` after a timeout scan at time 20 reclaimed the stuck launch:
index 0 is tracked in `tidToIndex` and unfinished but no longer launched. -/
def jobB2 : SimpleJob := (check_task_timeout jobB1 20).1

/-! ### Claim C2 -/

/-- C2: a status report whose attempt id is unknown, or whose resolved index
is already finished, leaves all job state unchanged and emits no scheduler
call; reporting `Finished` a second time for the same attempt id is a no-op
the second time, so `tasksFinished` is incremented exactly once and no second
success notification is sent. -/
theorem claim_C2_stale_report_noop (s : SimpleJob) (nowA nowB nowC nowC2 : Int)
    (tidA tidB tidC triedA triedB triedC triedC2 statusA statusB : Nat)
    (reasonA reasonB reasonC reasonC2 : Reason) :
    (List.lookup tidA s.tidToIndex = none →
      statusUpdate s nowA tidA triedA statusA reasonA = (s, [])) ∧
    (∀ i, List.lookup tidB s.tidToIndex = some i → s.finished.getD i false = true →
      statusUpdate s nowB tidB triedB statusB reasonB = (s, [])) ∧
    (∀ i, List.lookup tidC s.tidToIndex = some i → s.finished.getD i false = false →
      i < s.finished.length →
      (statusUpdate s nowC tidC triedC TASK_FINISHED reasonC).1.tasksFinished
        = s.tasksFinished + 1 ∧
      statusUpdate (statusUpdate s nowC tidC triedC TASK_FINISHED reasonC).1
          nowC2 tidC triedC2 TASK_FINISHED reasonC2
        = ((statusUpdate s nowC tidC triedC TASK_FINISHED reasonC).1, [])) := by
  refine ⟨fun h => statusUpdate_unknown s nowA tidA triedA statusA reasonA h,
    fun i h hf => statusUpdate_already_finished s nowB tidB triedB statusB reasonB i h hf,
    fun i h hf hlen => ?_⟩
  by_cases hl : s.launched.getD i false = true
  · have e1 := statusUpdate_launched_eq s nowC tidC triedC TASK_FINISHED reasonC i h hf hl
    rw [if_pos rfl] at e1
    rw [taskFinished_eq (withStatus s i TASK_FINISHED) nowC tidC triedC i h] at e1
    refine ⟨by rw [e1]; simp [modifyTask, withStatus, withStatusLaunch], ?_⟩
    have hlook2 : List.lookup tidC (statusUpdate s nowC tidC triedC TASK_FINISHED reasonC).1.tidToIndex
        = some i := by
      rw [e1]; simpa [modifyTask, withStatus, withStatusLaunch] using h
    have hfin2 : (statusUpdate s nowC tidC triedC TASK_FINISHED reasonC).1.finished.getD i false
        = true := by
      rw [e1]
      simp only [modifyTask, withStatus, withStatusLaunch]
      exact getD_set_self s.finished i true false hlen
    exact statusUpdate_already_finished _ nowC2 tidC triedC2 TASK_FINISHED reasonC2 i hlook2 hfin2
  · have hl2 : s.launched.getD i false = false := by
      cases hv : s.launched.getD i false with
      | true => exact absurd hv hl
      | false => rfl
    have e1 := statusUpdate_unlaunched_eq s nowC tidC triedC TASK_FINISHED reasonC i h hf hl2
    rw [if_pos rfl] at e1
    rw [taskFinished_eq (withStatusLaunch s i TASK_FINISHED) nowC tidC triedC i h] at e1
    refine ⟨by rw [e1]; simp [modifyTask, withStatus, withStatusLaunch], ?_⟩
    have hlook2 : List.lookup tidC (statusUpdate s nowC tidC triedC TASK_FINISHED reasonC).1.tidToIndex
        = some i := by
      rw [e1]; simpa [modifyTask, withStatus, withStatusLaunch] using h
    have hfin2 : (statusUpdate s nowC tidC triedC TASK_FINISHED reasonC).1.finished.getD i false
        = true := by
      rw [e1]
      simp only [modifyTask, withStatus, withStatusLaunch]
      exact getD_set_self s.finished i true false hlen
    exact statusUpdate_already_finished _ nowC2 tidC triedC2 TASK_FINISHED reasonC2 i hlook2 hfin2

theorem claim_C2_stale_report_noop_witness :
    (statusUpdate jobA3 5 99 1 TASK_LOST Reason.noReason = (jobA3, [])) ∧
    (statusUpdate jobA3 6 10 1 TASK_FINISHED Reason.noReason = (jobA3, [])) ∧
    ((statusUpdate jobA3 7 11 1 TASK_FINISHED Reason.noReason).1.tasksFinished
      = jobA3.tasksFinished + 1 ∧
     statusUpdate (statusUpdate jobA3 7 11 1 TASK_FINISHED Reason.noReason).1
        8 11 2 TASK_FINISHED Reason.noReason
      = ((statusUpdate jobA3 7 11 1 TASK_FINISHED Reason.noReason).1, [])) := by
  have h := claim_C2_stale_report_noop jobA3 5 6 7 8 99 10 11 1 1 1 2 TASK_LOST TASK_FINISHED
    Reason.noReason Reason.noReason Reason.noReason Reason.noReason
  exact ⟨h.1 (by decide), h.2.1 0 (by decide) (by decide),
    h.2.2 1 (by decide) (by decide) (by decide)⟩

/-! ### Claim C3 -/

/-- C3 counterexample: `jobB2` is reached through the public API
(construct, launch, timeout-reclaim), its attempt id 20 is tracked and
resolves to the unfinished index 0, and the report reason is not a fetch
failure, so the claim applies to the `TASK_KILLED` report below; yet the
update leaves `tasksLaunched` unchanged (the claim demands a decrease by
one) and leaves `numFailures` unchanged (the claim demands an increase by
one for all three of Lost/Failed/Killed). -/
theorem claim_C3_counterexample :
    List.lookup 20 jobB2.tidToIndex = some 0 ∧
    jobB2.finished.getD 0 false = false ∧
    (statusUpdate jobB2 21 20 1 TASK_KILLED (Reason.otherReason "oom")).1.tasksLaunched
      = jobB2.tasksLaunched ∧
    (statusUpdate jobB2 21 20 1 TASK_KILLED (Reason.otherReason "oom")).1.numFailures
      = jobB2.numFailures := by
  decide

/-- C3 amended: for a `statusUpdate` on a tracked, unfinished index with
status Lost, Failed or Killed and a non-fetch-failure reason,
`launched[index]` becomes false; `tasksLaunched` decreases by exactly one
when the index was launched at the time of the report and is unchanged
otherwise; and `numFailures[index]` increases by exactly one for Lost and
Failed but is unchanged for Killed. -/
theorem claim_C3_amended_loss_accounting (s : SimpleJob) (now : Int)
    (tid tried status : Nat) (reason : Reason) (i : Nat)
    (h : List.lookup tid s.tidToIndex = some i)
    (hf : s.finished.getD i false = false)
    (hil : i < s.launched.length) (hin : i < s.numFailures.length)
    (hst : status = TASK_LOST ∨ status = TASK_FAILED ∨ status = TASK_KILLED)
    (hnf : ∀ uri, reason ≠ Reason.fetchFailed uri) :
    (statusUpdate s now tid tried status reason).1.launched.getD i false = false ∧
    (s.launched.getD i false = true →
      (statusUpdate s now tid tried status reason).1.tasksLaunched = s.tasksLaunched - 1) ∧
    (s.launched.getD i false = false →
      (statusUpdate s now tid tried status reason).1.tasksLaunched = s.tasksLaunched) ∧
    (status = TASK_LOST ∨ status = TASK_FAILED →
      (statusUpdate s now tid tried status reason).1.numFailures.getD i 0
        = s.numFailures.getD i 0 + 1) ∧
    (status = TASK_KILLED →
      (statusUpdate s now tid tried status reason).1.numFailures = s.numFailures) := by
  have hnotfin : ¬ status = TASK_FINISHED := by
    rcases hst with hv | hv | hv <;> rw [hv] <;> decide
  by_cases hl : s.launched.getD i false = true
  · have e1 := statusUpdate_launched_eq s now tid tried status reason i h hf hl
    rw [if_neg hnotfin, if_pos hst] at e1
    rcases hst with hv | hv | hv
    · subst hv
      have e2 := taskLost_failure_eq (withStatus s i TASK_LOST) tid tried TASK_LOST reason i h
        hnf (Or.inr rfl)
      rw [e2] at e1
      by_cases hnum : (withStatus s i TASK_LOST).numFailures.getD i 0 + 1 > MAX_TASK_FAILURES
      · rw [if_pos hnum] at e1
        refine ⟨?_, ?_, ?_, ?_, ?_⟩
        · rw [e1]
          simp only [modifyTask, withStatus]
          exact getD_set_self s.launched i false false hil
        · intro _; rw [e1]; simp [modifyTask, withStatus]
        · intro hcontra; rw [hcontra] at hl; exact absurd hl (by decide)
        · intro _; rw [e1]
          simp only [modifyTask, withStatus]
          exact getD_set_self s.numFailures i _ 0 hin
        · intro hcontra; exact absurd hcontra (by decide)
      · rw [if_neg hnum] at e1
        refine ⟨?_, ?_, ?_, ?_, ?_⟩
        · rw [e1]
          simp only [modifyTask, withStatus]
          exact getD_set_self s.launched i false false hil
        · intro _; rw [e1]; simp [modifyTask, withStatus]
        · intro hcontra; rw [hcontra] at hl; exact absurd hl (by decide)
        · intro _; rw [e1]
          simp only [modifyTask, withStatus]
          exact getD_set_self s.numFailures i _ 0 hin
        · intro hcontra; exact absurd hcontra (by decide)
    · subst hv
      have e2 := taskLost_failure_eq (withStatus s i TASK_FAILED) tid tried TASK_FAILED reason i h
        hnf (Or.inl rfl)
      rw [e2] at e1
      by_cases hnum : (withStatus s i TASK_FAILED).numFailures.getD i 0 + 1 > MAX_TASK_FAILURES
      · rw [if_pos hnum] at e1
        refine ⟨?_, ?_, ?_, ?_, ?_⟩
        · rw [e1]
          simp only [modifyTask, withStatus]
          exact getD_set_self s.launched i false false hil
        · intro _; rw [e1]; simp [modifyTask, withStatus]
        · intro hcontra; rw [hcontra] at hl; exact absurd hl (by decide)
        · intro _; rw [e1]
          simp only [modifyTask, withStatus]
          exact getD_set_self s.numFailures i _ 0 hin
        · intro hcontra; exact absurd hcontra (by decide)
      · rw [if_neg hnum] at e1
        refine ⟨?_, ?_, ?_, ?_, ?_⟩
        · rw [e1]
          simp only [modifyTask, withStatus]
          exact getD_set_self s.launched i false false hil
        · intro _; rw [e1]; simp [modifyTask, withStatus]
        · intro hcontra; rw [hcontra] at hl; exact absurd hl (by decide)
        · intro _; rw [e1]
          simp only [modifyTask, withStatus]
          exact getD_set_self s.numFailures i _ 0 hin
        · intro hcontra; exact absurd hcontra (by decide)
    · subst hv
      have e2 := taskLost_killed_eq (withStatus s i TASK_KILLED) tid tried reason i h hnf
      rw [e2] at e1
      refine ⟨?_, ?_, ?_, ?_, ?_⟩
      · rw [e1]
        simp only [modifyTask, withStatus]
        exact getD_set_self s.launched i false false hil
      · intro _; rw [e1]; simp [modifyTask, withStatus]
      · intro hcontra; rw [hcontra] at hl; exact absurd hl (by decide)
      · intro hcontra; rcases hcontra with hv | hv <;> exact absurd hv (by decide)
      · intro _; rw [e1]; simp [modifyTask, withStatus]
  · have hl2 : s.launched.getD i false = false := by
      cases hv : s.launched.getD i false with
      | true => exact absurd hv hl
      | false => rfl
    have e1 := statusUpdate_unlaunched_eq s now tid tried status reason i h hf hl2
    rw [if_neg hnotfin, if_pos hst] at e1
    have hlenL : i < (withStatusLaunch s i status).launched.length := by
      simp only [withStatusLaunch]
      simpa using hil
    rcases hst with hv | hv | hv
    · subst hv
      have e2 := taskLost_failure_eq (withStatusLaunch s i TASK_LOST) tid tried TASK_LOST reason i h
        hnf (Or.inr rfl)
      rw [e2] at e1
      by_cases hnum : (withStatusLaunch s i TASK_LOST).numFailures.getD i 0 + 1 > MAX_TASK_FAILURES
      · rw [if_pos hnum] at e1
        refine ⟨?_, ?_, ?_, ?_, ?_⟩
        · rw [e1]
          simp only [modifyTask, withStatusLaunch]
          exact getD_set_self _ i false false (by simpa using hil)
        · intro hcontra; rw [hcontra] at hl2; exact absurd hl2 (by decide)
        · intro _; rw [e1]; simp [modifyTask, withStatusLaunch]
        · intro _; rw [e1]
          simp only [modifyTask, withStatusLaunch]
          exact getD_set_self s.numFailures i _ 0 hin
        · intro hcontra; exact absurd hcontra (by decide)
      · rw [if_neg hnum] at e1
        refine ⟨?_, ?_, ?_, ?_, ?_⟩
        · rw [e1]
          simp only [modifyTask, withStatusLaunch]
          exact getD_set_self _ i false false (by simpa using hil)
        · intro hcontra; rw [hcontra] at hl2; exact absurd hl2 (by decide)
        · intro _; rw [e1]; simp [modifyTask, withStatusLaunch]
        · intro _; rw [e1]
          simp only [modifyTask, withStatusLaunch]
          exact getD_set_self s.numFailures i _ 0 hin
        · intro hcontra; exact absurd hcontra (by decide)
    · subst hv
      have e2 := taskLost_failure_eq (withStatusLaunch s i TASK_FAILED) tid tried TASK_FAILED reason i h
        hnf (Or.inl rfl)
      rw [e2] at e1
      by_cases hnum : (withStatusLaunch s i TASK_FAILED).numFailures.getD i 0 + 1 > MAX_TASK_FAILURES
      · rw [if_pos hnum] at e1
        refine ⟨?_, ?_, ?_, ?_, ?_⟩
        · rw [e1]
          simp only [modifyTask, withStatusLaunch]
          exact getD_set_self _ i false false (by simpa using hil)
        · intro hcontra; rw [hcontra] at hl2; exact absurd hl2 (by decide)
        · intro _; rw [e1]; simp [modifyTask, withStatusLaunch]
        · intro _; rw [e1]
          simp only [modifyTask, withStatusLaunch]
          exact getD_set_self s.numFailures i _ 0 hin
        · intro hcontra; exact absurd hcontra (by decide)
      · rw [if_neg hnum] at e1
        refine ⟨?_, ?_, ?_, ?_, ?_⟩
        · rw [e1]
          simp only [modifyTask, withStatusLaunch]
          exact getD_set_self _ i false false (by simpa using hil)
        · intro hcontra; rw [hcontra] at hl2; exact absurd hl2 (by decide)
        · intro _; rw [e1]; simp [modifyTask, withStatusLaunch]
        · intro _; rw [e1]
          simp only [modifyTask, withStatusLaunch]
          exact getD_set_self s.numFailures i _ 0 hin
        · intro hcontra; exact absurd hcontra (by decide)
    · subst hv
      have e2 := taskLost_killed_eq (withStatusLaunch s i TASK_KILLED) tid tried reason i h hnf
      rw [e2] at e1
      refine ⟨?_, ?_, ?_, ?_, ?_⟩
      · rw [e1]
        simp only [modifyTask, withStatusLaunch]
        exact getD_set_self _ i false false (by simpa using hil)
      · intro hcontra; rw [hcontra] at hl2; exact absurd hl2 (by decide)
      · intro _; rw [e1]; simp [modifyTask, withStatusLaunch]
      · intro hcontra; rcases hcontra with hv | hv <;> exact absurd hv (by decide)
      · intro _; rw [e1]; simp [modifyTask, withStatusLaunch]

theorem claim_C3_amended_loss_accounting_witness :
    ((statusUpdate jobB1 2 20 1 TASK_LOST (Reason.otherReason "oom")).1.launched.getD 0 false
      = false ∧
     (jobB1.launched.getD 0 false = true →
      (statusUpdate jobB1 2 20 1 TASK_LOST (Reason.otherReason "oom")).1.tasksLaunched
        = jobB1.tasksLaunched - 1) ∧
     (jobB1.launched.getD 0 false = false →
      (statusUpdate jobB1 2 20 1 TASK_LOST (Reason.otherReason "oom")).1.tasksLaunched
        = jobB1.tasksLaunched) ∧
     (TASK_LOST = TASK_LOST ∨ TASK_LOST = TASK_FAILED →
      (statusUpdate jobB1 2 20 1 TASK_LOST (Reason.otherReason "oom")).1.numFailures.getD 0 0
        = jobB1.numFailures.getD 0 0 + 1) ∧
     (TASK_LOST = TASK_KILLED →
      (statusUpdate jobB1 2 20 1 TASK_LOST (Reason.otherReason "oom")).1.numFailures
        = jobB1.numFailures)) :=
  claim_C3_amended_loss_accounting jobB1 2 20 1 TASK_LOST (Reason.otherReason "oom") 0
    (by decide) (by decide) (by decide) (by decide) (Or.inl rfl)
    (fun uri => by simp)

/-! ### Claim C4 -/

/-- C4: with `MAX_TASK_FAILURES = 4`, a non-fetch-failure Failed/Lost report
that brings `numFailures[index]` above 4 aborts the job — `failed` becomes
true, `causeOfFailure` is set to the descriptive message, and the scheduler
receives `jobFinished` followed by `shutdown` — while a report that brings
the count to at most 4 aborts nothing and sends neither notification. -/
theorem claim_C4_retry_budget_abort (s : SimpleJob) (now : Int)
    (tid tried status : Nat) (reason : Reason) (i : Nat)
    (h : List.lookup tid s.tidToIndex = some i)
    (hf : s.finished.getD i false = false)
    (hl : s.launched.getD i false = true)
    (hin : i < s.numFailures.length)
    (hst : status = TASK_FAILED ∨ status = TASK_LOST)
    (hnf : ∀ uri, reason ≠ Reason.fetchFailed uri) :
    (statusUpdate s now tid tried status reason).1.numFailures.getD i 0
      = s.numFailures.getD i 0 + 1 ∧
    (s.numFailures.getD i 0 + 1 > MAX_TASK_FAILURES →
      (statusUpdate s now tid tried status reason).1.failed = true ∧
      (statusUpdate s now tid tried status reason).1.causeOfFailure = abortMsg i ∧
      (statusUpdate s now tid tried status reason).2 =
        (if s.tasksLaunched = (s.numTasks : Int) then [Event.requestMoreResources] else [])
          ++ [Event.jobFinished, Event.shutdown]) ∧
    (s.numFailures.getD i 0 + 1 ≤ MAX_TASK_FAILURES →
      (statusUpdate s now tid tried status reason).1.failed = s.failed ∧
      Event.jobFinished ∉ (statusUpdate s now tid tried status reason).2 ∧
      Event.shutdown ∉ (statusUpdate s now tid tried status reason).2) := by
  have hnotfin : ¬ status = TASK_FINISHED := by
    rcases hst with hv | hv <;> rw [hv] <;> decide
  have hst2 : status = TASK_LOST ∨ status = TASK_FAILED ∨ status = TASK_KILLED := by
    rcases hst with hv | hv
    · exact Or.inr (Or.inl hv)
    · exact Or.inl hv
  have e1 := statusUpdate_launched_eq s now tid tried status reason i h hf hl
  rw [if_neg hnotfin, if_pos hst2] at e1
  rw [taskLost_failure_eq (withStatus s i status) tid tried status reason i h hnf hst] at e1
  simp only [withStatus] at e1
  by_cases hnum : s.numFailures.getD i 0 + 1 > MAX_TASK_FAILURES
  · rw [if_pos hnum] at e1
    refine ⟨?_, fun _ => ⟨?_, ?_, ?_⟩, fun hle => absurd hnum (by omega)⟩
    · rw [e1]
      simp only [modifyTask]
      exact getD_set_self s.numFailures i _ 0 hin
    · rw [e1]; simp [modifyTask]
    · rw [e1]; simp [modifyTask]
    · rw [e1]
  · rw [if_neg hnum] at e1
    refine ⟨?_, fun hgt => absurd hgt hnum, fun _ => ⟨?_, ?_, ?_⟩⟩
    · rw [e1]
      simp only [modifyTask]
      exact getD_set_self s.numFailures i _ 0 hin
    · rw [e1]; simp [modifyTask]
    · rw [e1]
      split_ifs <;> simp
    · rw [e1]
      split_ifs <;> simp

/-- One no-preference task, for the retry-budget scenario. -/
def jobC : SimpleJob := mkSimpleJob 3 0 [mkTask 30]

/-- `jobC` after three launch/fail cycles and a fourth launch: attempt id 30
is tracked at index 0, launched, with `numFailures[0] = 3`. -/
def jobC7 : SimpleJob :=
  let c1 := (slaveOffer noResolver jobC "h1" 1 1).1
  let c2 := (statusUpdate c1 2 30 1 TASK_FAILED (Reason.otherReason "x")).1
  let c3 := (slaveOffer noResolver c2 "h2" 1 3).1
  let c4 := (statusUpdate c3 4 30 2 TASK_FAILED (Reason.otherReason "x")).1
  let c5 := (slaveOffer noResolver c4 "h3" 1 5).1
  let c6 := (statusUpdate c5 6 30 3 TASK_FAILED (Reason.otherReason "x")).1
  (slaveOffer noResolver c6 "h4" 1 7).1

/-- `jobC7` after the fourth failure report and a fifth launch:
`numFailures[0] = 4`, index 0 launched again. -/
def jobC9 : SimpleJob :=
  let c8 := (statusUpdate jobC7 8 30 4 TASK_FAILED (Reason.otherReason "x")).1
  (slaveOffer noResolver c8 "h5" 1 9).1

theorem claim_C4_retry_budget_abort_witness :
    ((statusUpdate jobC7 8 30 4 TASK_FAILED (Reason.otherReason "x")).1.numFailures.getD 0 0
      = jobC7.numFailures.getD 0 0 + 1 ∧
     (statusUpdate jobC7 8 30 4 TASK_FAILED (Reason.otherReason "x")).1.failed = jobC7.failed ∧
     Event.jobFinished ∉ (statusUpdate jobC7 8 30 4 TASK_FAILED (Reason.otherReason "x")).2 ∧
     Event.shutdown ∉ (statusUpdate jobC7 8 30 4 TASK_FAILED (Reason.otherReason "x")).2) ∧
    ((statusUpdate jobC9 10 30 5 TASK_FAILED (Reason.otherReason "x")).1.failed = true ∧
     (statusUpdate jobC9 10 30 5 TASK_FAILED (Reason.otherReason "x")).1.causeOfFailure
       = abortMsg 0 ∧
     (statusUpdate jobC9 10 30 5 TASK_FAILED (Reason.otherReason "x")).2 =
       (if jobC9.tasksLaunched = (jobC9.numTasks : Int) then [Event.requestMoreResources] else [])
         ++ [Event.jobFinished, Event.shutdown]) := by
  have h7 := claim_C4_retry_budget_abort jobC7 8 30 4 TASK_FAILED (Reason.otherReason "x") 0
    (by decide) (by decide) (by decide) (by decide) (Or.inl rfl) (fun uri => by simp)
  have h9 := claim_C4_retry_budget_abort jobC9 10 30 5 TASK_FAILED (Reason.otherReason "x") 0
    (by decide) (by decide) (by decide) (by decide) (Or.inl rfl) (fun uri => by simp)
  have hcnt7 : jobC7.numFailures.getD 0 0 + 1 ≤ MAX_TASK_FAILURES := by decide
  have hcnt9 : jobC9.numFailures.getD 0 0 + 1 > MAX_TASK_FAILURES := by decide
  exact ⟨⟨h7.1, (h7.2.2 hcnt7).1, (h7.2.2 hcnt7).2.1, (h7.2.2 hcnt7).2.2⟩, h9.2.1 hcnt9⟩

/-! ### Claim C5 -/

/-- C5 counterexample: `jobB1` is reached through the public API; attempt
id 20 is tracked at unfinished index 0, whose task has `start = 1`.  The
claim says a fetch-failure report returns without further processing and in
particular does not reset `task.start`; but after the report below the
task's `start` equals the report time 50, because the `return` in
`taskLost` (job.py line 223) only leaves `taskLost`, after which
`statusUpdate` still executes `task.start = time.time()` (line 179). -/
theorem claim_C5_counterexample :
    List.lookup 20 jobB1.tidToIndex = some 0 ∧
    jobB1.finished.getD 0 false = false ∧
    (jobB1.tasks.getD 0 default).start = 1 ∧
    ((statusUpdate jobB1 50 20 1 TASK_LOST (Reason.fetchFailed "uri")).1.tasks.getD 0
      default).start = 50 := by
  decide

/-- C5 amended: a status update on a tracked, unfinished, launched index
whose reason is a fetch failure notifies the scheduler via `taskEnded` with
the failure reason (not success), sets `finished[index]` true and increments
`tasksFinished`, leaves `numFailures` untouched, aborts nothing, appends
`jobFinished` exactly when this completes the job, and performs no further
failure processing — except that `task.start` IS reset to the current time
by the tail of `statusUpdate` after `taskLost` returns. -/
theorem claim_C5_amended_fetch_failure (s : SimpleJob) (now : Int)
    (tid tried status : Nat) (uri : String) (i : Nat)
    (h : List.lookup tid s.tidToIndex = some i)
    (hf : s.finished.getD i false = false)
    (hl : s.launched.getD i false = true)
    (hit : i < s.tasks.length) (hifin : i < s.finished.length)
    (hst : status = TASK_LOST ∨ status = TASK_FAILED ∨ status = TASK_KILLED) :
    (statusUpdate s now tid tried status (Reason.fetchFailed uri)).1.finished.getD i false
      = true ∧
    (statusUpdate s now tid tried status (Reason.fetchFailed uri)).1.tasksFinished
      = s.tasksFinished + 1 ∧
    (statusUpdate s now tid tried status (Reason.fetchFailed uri)).1.numFailures
      = s.numFailures ∧
    (statusUpdate s now tid tried status (Reason.fetchFailed uri)).1.failed = s.failed ∧
    (statusUpdate s now tid tried status (Reason.fetchFailed uri)).1.causeOfFailure
      = s.causeOfFailure ∧
    (statusUpdate s now tid tried status (Reason.fetchFailed uri)).2 =
      (if s.tasksLaunched = (s.numTasks : Int) then [Event.requestMoreResources] else [])
        ++ [Event.taskEnded (s.tasks.getD i default).id
              (Outcome.failure (Reason.fetchFailed uri))]
        ++ (if s.tasksFinished + 1 = s.numTasks then [Event.jobFinished] else []) ∧
    ((statusUpdate s now tid tried status (Reason.fetchFailed uri)).1.tasks.getD i
      default).start = now := by
  have hnotfin : ¬ status = TASK_FINISHED := by
    rcases hst with hv | hv | hv <;> rw [hv] <;> decide
  have e1 := statusUpdate_launched_eq s now tid tried status (Reason.fetchFailed uri) i h hf hl
  rw [if_neg hnotfin, if_pos hst] at e1
  rw [taskLost_fetch_eq (withStatus s i status) tid tried status uri i h] at e1
  simp only [withStatus] at e1
  have htask : (s.tasks.set i { s.tasks.getD i default with status := status }).getD i default
      = { s.tasks.getD i default with status := status } :=
    getD_set_self s.tasks i _ default hit
  refine ⟨?_, ?_, ?_, ?_, ?_, ?_, ?_⟩
  · rw [e1]
    simp only [modifyTask]
    exact getD_set_self s.finished i true false hifin
  · rw [e1]; simp [modifyTask]
  · rw [e1]; simp [modifyTask]
  · rw [e1]; simp [modifyTask]
  · rw [e1]; simp [modifyTask]
  · rw [e1]
    rw [htask]
  · rw [e1]
    simp only [modifyTask]
    rw [getD_set_self _ i _ default (by simpa using hit)]

theorem claim_C5_amended_fetch_failure_witness :
    (statusUpdate jobB1 50 20 1 TASK_LOST (Reason.fetchFailed "uri")).1.finished.getD 0 false
      = true ∧
    (statusUpdate jobB1 50 20 1 TASK_LOST (Reason.fetchFailed "uri")).1.tasksFinished
      = jobB1.tasksFinished + 1 ∧
    (statusUpdate jobB1 50 20 1 TASK_LOST (Reason.fetchFailed "uri")).1.numFailures
      = jobB1.numFailures ∧
    (statusUpdate jobB1 50 20 1 TASK_LOST (Reason.fetchFailed "uri")).1.failed = jobB1.failed ∧
    (statusUpdate jobB1 50 20 1 TASK_LOST (Reason.fetchFailed "uri")).1.causeOfFailure
      = jobB1.causeOfFailure ∧
    (statusUpdate jobB1 50 20 1 TASK_LOST (Reason.fetchFailed "uri")).2 =
      (if jobB1.tasksLaunched = (jobB1.numTasks : Int) then [Event.requestMoreResources] else [])
        ++ [Event.taskEnded (jobB1.tasks.getD 0 default).id
              (Outcome.failure (Reason.fetchFailed "uri"))]
        ++ (if jobB1.tasksFinished + 1 = jobB1.numTasks then [Event.jobFinished] else []) ∧
    ((statusUpdate jobB1 50 20 1 TASK_LOST (Reason.fetchFailed "uri")).1.tasks.getD 0
      default).start = 50 :=
  claim_C5_amended_fetch_failure jobB1 50 20 1 TASK_LOST "uri" 0
    (by decide) (by decide) (by decide) (by decide) (by decide) (Or.inl rfl)

/-! ### Claim C6 -/

/-- One task whose preferred location is host `h1`. -/
def jobD : SimpleJob := mkSimpleJob 4 0 [{ mkTask 40 with prefs := ["h1"] }]

/-- The first lookup stage of `findTask` (job.py line 121): the host's
preferred-locality candidate list. -/
def stage1 (resolve : Resolver) (s : SimpleJob) (host : String) : Option Nat × SimpleJob :=
  let pv := getPendingTasksForHost resolve s host
  findTaskFromList pv.2 pv.1 host

/-- The second lookup stage of `findTask` (job.py line 124): the
no-preference list, tried only when the first stage found nothing. -/
def stage2 (resolve : Resolver) (s : SimpleJob) (host : String) : Option Nat × SimpleJob :=
  findTaskFromList (stage1 resolve s host).2
    (stage1 resolve s host).2.pendingTasksWithNoPrefs host

theorem findTask_stage1_some (resolve : Resolver) (s : SimpleJob) (host : String)
    (lo : Bool) (i : Nat) (h : (stage1 resolve s host).1 = some i) :
    findTask resolve s host lo = (some i, true, (stage1 resolve s host).2) := by
  unfold findTask
  dsimp only []
  unfold stage1 at h ⊢
  dsimp only [] at h ⊢
  rw [h]

theorem findTask_stage2_some (resolve : Resolver) (s : SimpleJob) (host : String)
    (lo : Bool) (i : Nat) (h1 : (stage1 resolve s host).1 = none)
    (h2 : (stage2 resolve s host).1 = some i) :
    findTask resolve s host lo = (some i, true, (stage2 resolve s host).2) := by
  unfold findTask
  dsimp only []
  unfold stage2 at h2
  unfold stage1 at h1 h2
  dsimp only [] at h1 h2
  rw [h1, h2]
  rfl

theorem findTask_stage12_none (resolve : Resolver) (s : SimpleJob) (host : String)
    (lo : Bool) (h1 : (stage1 resolve s host).1 = none)
    (h2 : (stage2 resolve s host).1 = none) :
    (findTask resolve s host lo).2.1 = false := by
  unfold findTask
  dsimp only []
  unfold stage2 at h2
  unfold stage1 at h1 h2
  dsimp only [] at h1 h2
  rw [h1, h2]
  cases lo with
  | true => rfl
  | false => rfl

/-- C6 counterexample: in `jobB` no task has preferred locations, so the
host-preference stage finds nothing and the launched index 0 is selected
from the no-preference list; the claim says such a launch leaves
`lastPreferredLaunchTime` unchanged, yet the offer at time 1 changes it
from 0 to 1 (job.py line 126 returns `True` for the no-preference stage,
so line 151 fires). -/
theorem claim_C6_counterexample :
    (stage1 noResolver jobB "hostA").1 = none ∧
    (stage2 noResolver jobB "hostA").1 = some 0 ∧
    jobB.lastPreferredLaunchTime = 0 ∧
    (slaveOffer noResolver jobB "hostA" 1 1).1.lastPreferredLaunchTime = 1 := by
  decide

/-- C6 amended: `slaveOffer` sets `lastPreferredLaunchTime` to the current
time exactly when the launched task was selected from the host's
preferred-locality candidate list or from the no-preference list; only a
launch taken from the global fallback list, or an offer that launches
nothing, leaves `lastPreferredLaunchTime` unchanged. -/
theorem claim_C6_amended_preferred_timestamp (resolve : Resolver)
    (sA sB sC : SimpleJob) (hostA hostB hostC : String) (cA cB cC : Nat)
    (nowA nowB nowC : Int) :
    (∀ i, (stage1 resolve sA hostA).1 = some i →
      (slaveOffer resolve sA hostA cA nowA).1.lastPreferredLaunchTime = nowA) ∧
    (∀ i, (stage1 resolve sB hostB).1 = none → (stage2 resolve sB hostB).1 = some i →
      (slaveOffer resolve sB hostB cB nowB).1.lastPreferredLaunchTime = nowB) ∧
    ((stage1 resolve sC hostC).1 = none → (stage2 resolve sC hostC).1 = none →
      (slaveOffer resolve sC hostC cC nowC).1.lastPreferredLaunchTime
        = sC.lastPreferredLaunchTime) := by
  refine ⟨fun i h => ?_, fun i h1 h2 => ?_, fun h1 h2 => ?_⟩
  · unfold slaveOffer
    dsimp only []
    rw [findTask_stage1_some resolve sA hostA _ i h]
    simp
  · unfold slaveOffer
    dsimp only []
    rw [findTask_stage2_some resolve sB hostB _ i h1 h2]
    simp
  · have hflag := findTask_stage12_none resolve sC hostC
      (decide (nowC - sC.lastPreferredLaunchTime < LOCALITY_WAIT)) h1 h2
    obtain ⟨hc, b, hframe, _⟩ := findTask_frame resolve sC hostC
      (decide (nowC - sC.lastPreferredLaunchTime < LOCALITY_WAIT))
    unfold slaveOffer
    dsimp only []
    cases hret : (findTask resolve sC hostC
        (decide (nowC - sC.lastPreferredLaunchTime < LOCALITY_WAIT))).1 with
    | none => rw [hframe]
    | some j =>
      rw [hflag, hframe]
      simp

theorem claim_C6_amended_preferred_timestamp_witness :
    ((slaveOffer noResolver jobD "h1" 1 1).1.lastPreferredLaunchTime = 1) ∧
    ((slaveOffer noResolver jobB "hostA" 1 1).1.lastPreferredLaunchTime = 1) ∧
    ((slaveOffer noResolver jobB1 "hostA" 1 2).1.lastPreferredLaunchTime
      = jobB1.lastPreferredLaunchTime) := by
  have h := claim_C6_amended_preferred_timestamp noResolver jobD jobB jobB1
    "h1" "hostA" "hostA" 1 1 1 1 1 2
  exact ⟨h.1 0 (by decide), h.2.1 0 (by decide) (by decide),
    h.2.2 (by decide) (by decide)⟩

/-! ### Claim C1: counter-array consistency -/

/-- The invariant of spec section 8: `tasksLaunched` equals the number of
launched flags set and `tasksFinished` equals the number of finished flags
set. -/
def CounterInv (s : SimpleJob) : Prop :=
  s.tasksLaunched = (s.launched.count true : Int) ∧
  s.tasksFinished = s.finished.count true

/-- Structural well-formedness maintained by every operation: the parallel
arrays have length `numTasks` and every task index stored in `tidToIndex`,
the pending lists or the host cache is in range. -/
def WF (s : SimpleJob) : Prop :=
  s.launched.length = s.numTasks ∧
  s.finished.length = s.numTasks ∧
  s.tasks.length = s.numTasks ∧
  (∀ p ∈ s.tidToIndex, p.2 < s.numTasks) ∧
  (∀ i ∈ s.allPendingTasks, i < s.numTasks) ∧
  (∀ i ∈ s.pendingTasksWithNoPrefs, i < s.numTasks) ∧
  (∀ kv ∈ s.pendingTasksForHost, ∀ i ∈ kv.2, i < s.numTasks) ∧
  (∀ kv ∈ s.host_cache, ∀ i ∈ kv.2, i < s.numTasks)

/-- States reachable through the public API: construction followed by any
sequence of `slaveOffer`, `statusUpdate` and `check_task_timeout` calls. -/
inductive Reachable : SimpleJob → Prop where
  | init (jobId : Nat) (now : Int) (tasks : List Task) :
      Reachable (mkSimpleJob jobId now tasks)
  | offer (resolve : Resolver) (host : String) (cpus : Nat) (now : Int)
      {s : SimpleJob} : Reachable s → Reachable (slaveOffer resolve s host cpus now).1
  | update (now : Int) (tid tried status : Nat) (reason : Reason)
      {s : SimpleJob} : Reachable s → Reachable (statusUpdate s now tid tried status reason).1
  | timeout (now : Int) {s : SimpleJob} :
      Reachable s → Reachable (check_task_timeout s now).1

theorem lookup_mem {β : Type} (m : List (Nat × β)) (k : Nat) (v : β)
    (h : List.lookup k m = some v) : (k, v) ∈ m := by
  induction m with
  | nil => simp [List.lookup] at h
  | cons kv rest ih =>
    obtain ⟨k2, v2⟩ := kv
    rw [List.lookup_cons] at h
    by_cases hk : (k == k2) = true
    · simp only [hk] at h
      cases h
      have : k = k2 := by simpa using hk
      subst this
      exact List.mem_cons_self _ _
    · rw [Bool.eq_false_iff.mpr hk] at h
      exact List.mem_cons_of_mem _ (ih h)

theorem lookup_mem_str {β : Type} (m : List (String × β)) (k : String) (v : β)
    (h : List.lookup k m = some v) : (k, v) ∈ m := by
  induction m with
  | nil => simp [List.lookup] at h
  | cons kv rest ih =>
    obtain ⟨k2, v2⟩ := kv
    rw [List.lookup_cons] at h
    by_cases hk : (k == k2) = true
    · simp only [hk] at h
      cases h
      have : k = k2 := by simpa using hk
      subst this
      exact List.mem_cons_self _ _
    · rw [Bool.eq_false_iff.mpr hk] at h
      exact List.mem_cons_of_mem _ (ih h)

theorem mem_bump (st : List (Nat × Nat)) (t : Nat) (p : Nat × Nat)
    (h : p ∈ bump st t) : p.1 = t ∨ ∃ c, (p.1, c) ∈ st := by
  induction st with
  | nil =>
    simp only [bump, List.mem_singleton] at h
    subst h
    exact Or.inl rfl
  | cons kv rest ih =>
    obtain ⟨k, c⟩ := kv
    unfold bump at h
    by_cases hk : k = t
    · rw [if_pos hk] at h
      rcases List.mem_cons.mp h with hv | hv
      · subst hv; exact Or.inl hk
      · exact Or.inr ⟨p.2, by rw [show (p.1, p.2) = p from rfl]; exact List.mem_cons_of_mem _ hv⟩
    · rw [if_neg hk] at h
      rcases List.mem_cons.mp h with hv | hv
      · subst hv; exact Or.inr ⟨c, List.mem_cons_self _ _⟩
      · rcases ih hv with hl | ⟨c2, hc2⟩
        · exact Or.inl hl
        · exact Or.inr ⟨c2, List.mem_cons_of_mem _ hc2⟩

theorem mem_foldl_bump (l : List Nat) (st : List (Nat × Nat)) (p : Nat × Nat)
    (h : p ∈ l.foldl bump st) : p.1 ∈ l ∨ ∃ c, (p.1, c) ∈ st := by
  induction l generalizing st with
  | nil => exact Or.inr ⟨p.2, h⟩
  | cons t rest ih =>
    rw [List.foldl_cons] at h
    rcases ih (bump st t) h with hl | ⟨c, hc⟩
    · exact Or.inl (List.mem_cons_of_mem _ hl)
    · rcases mem_bump st t (p.1, c) hc with he | ⟨c2, hc2⟩
      · exact Or.inl (by rw [he]; exact List.mem_cons_self _ _)
      · exact Or.inr ⟨c2, hc2⟩

theorem mem_hostIdentityTasks (resolve : Resolver) (s : SimpleJob) (host : String)
    (i : Nat) (h : i ∈ hostIdentityTasks resolve s host) :
    ∃ kv ∈ s.pendingTasksForHost, i ∈ kv.2 := by
  unfold hostIdentityTasks at h
  rw [List.mem_flatten] at h
  obtain ⟨l, hl, hil⟩ := h
  rw [List.mem_map] at hl
  obtain ⟨x, _, hx⟩ := hl
  subst hx
  cases hlk : List.lookup x s.pendingTasksForHost with
  | none => rw [hlk] at hil; simp at hil
  | some v =>
    rw [hlk] at hil
    exact ⟨(x, v), lookup_mem_str _ x v hlk, hil⟩

theorem mem_getPendingCompute (resolve : Resolver) (s : SimpleJob) (host : String)
    (i : Nat) (h : i ∈ getPendingTasksForHostCompute resolve s host) :
    ∃ kv ∈ s.pendingTasksForHost, i ∈ kv.2 := by
  unfold getPendingTasksForHostCompute at h
  rw [List.mem_map] at h
  obtain ⟨p, hp, hpi⟩ := h
  subst hpi
  have hperm := List.perm_insertionSort cntGe
    ((hostIdentityTasks resolve s host).foldl bump [])
  have hmem := hperm.mem_iff.mp hp
  rcases mem_foldl_bump (hostIdentityTasks resolve s host) [] p hmem with hl | ⟨c, hc⟩
  · exact mem_hostIdentityTasks resolve s host p.1 hl
  · simp at hc

theorem getPendingTasksForHost_bound (resolve : Resolver) (s : SimpleJob) (host : String)
    (hwf : WF s) :
    (∀ i ∈ (getPendingTasksForHost resolve s host).1, i < s.numTasks) ∧
    WF (getPendingTasksForHost resolve s host).2 := by
  obtain ⟨h1, h2, h3, h4, h5, h6, h7, h8⟩ := hwf
  unfold getPendingTasksForHost
  cases hlk : List.lookup host s.host_cache with
  | some v =>
    refine ⟨fun i hi => h8 (host, v) (lookup_mem_str _ host v hlk) i hi, ?_⟩
    exact ⟨h1, h2, h3, h4, h5, h6, h7, h8⟩
  | none =>
    have hbound : ∀ i ∈ getPendingTasksForHostCompute resolve s host, i < s.numTasks := by
      intro i hi
      obtain ⟨kv, hkv, hikv⟩ := mem_getPendingCompute resolve s host i hi
      exact h7 kv hkv i hikv
    refine ⟨hbound, h1, h2, h3, h4, h5, h6, h7, ?_⟩
    intro kv hkv i hi
    rcases List.mem_cons.mp hkv with hv | hv
    · subst hv; exact hbound i hi
    · exact h8 kv hv i hi

theorem WF_blacklist_cache (s : SimpleJob) (hc : List (String × List Nat))
    (b : List (List String)) (hwf : WF s)
    (hcb : ∀ kv ∈ hc, ∀ i ∈ kv.2, i < s.numTasks) :
    WF { s with host_cache := hc, blacklist := b } := by
  obtain ⟨h1, h2, h3, h4, h5, h6, h7, _⟩ := hwf
  exact ⟨h1, h2, h3, h4, h5, h6, h7, hcb⟩

theorem findTask_spec (resolve : Resolver) (s : SimpleJob) (host : String) (lo : Bool)
    (hwf : WF s) :
    (∃ hc b, (findTask resolve s host lo).2.2 = { s with host_cache := hc, blacklist := b } ∧
      (∀ kv ∈ hc, ∀ i ∈ kv.2, i < s.numTasks)) ∧
    (∀ i, (findTask resolve s host lo).1 = some i →
      i < s.numTasks ∧ s.launched.getD i false = false ∧ s.finished.getD i false = false) := by
  obtain ⟨hpb, hwf2⟩ := getPendingTasksForHost_bound resolve s host hwf
  obtain ⟨hcch, hhc⟩ := getPendingTasksForHost_frame resolve s host
  have hcb : ∀ kv ∈ hcch, ∀ i ∈ kv.2, i < s.numTasks := by
    have := hwf2.2.2.2.2.2.2.2
    rw [hhc] at this
    exact this
  obtain ⟨b1, hb1, _⟩ := findTaskFromList_frame (getPendingTasksForHost resolve s host).2
    (getPendingTasksForHost resolve s host).1 host
  have hb1' : (findTaskFromList (getPendingTasksForHost resolve s host).2
      (getPendingTasksForHost resolve s host).1 host).2
      = { s with host_cache := hcch, blacklist := b1 } := by
    rw [hb1, hhc]
  unfold findTask
  dsimp only []
  rw [hb1']
  cases h1 : (findTaskFromList (getPendingTasksForHost resolve s host).2
      (getPendingTasksForHost resolve s host).1 host).1 with
  | some i =>
    obtain ⟨hmem, hlau, hfin⟩ := findTaskFromList_some _ _ host i h1
    rw [hhc] at hlau hfin
    refine ⟨⟨hcch, b1, rfl, hcb⟩, fun j hj => ?_⟩
    cases hj
    exact ⟨hpb i hmem, by simpa using hlau, by simpa using hfin⟩
  | none =>
    obtain ⟨b2, hb2, _⟩ := findTaskFromList_frame
      { s with host_cache := hcch, blacklist := b1 }
      ({ s with host_cache := hcch, blacklist := b1 } : SimpleJob).pendingTasksWithNoPrefs host
    rw [hb2]
    cases h2 : (findTaskFromList { s with host_cache := hcch, blacklist := b1 }
        ({ s with host_cache := hcch, blacklist := b1 } : SimpleJob).pendingTasksWithNoPrefs host).1 with
    | some i =>
      obtain ⟨hmem, hlau, hfin⟩ := findTaskFromList_some _ _ host i h2
      refine ⟨⟨hcch, b2, rfl, hcb⟩, fun j hj => ?_⟩
      cases hj
      exact ⟨hwf.2.2.2.2.2.1 i (by simpa using hmem), by simpa using hlau, by simpa using hfin⟩
    | none =>
      cases lo with
      | true => exact ⟨⟨hcch, b2, rfl, hcb⟩, fun j hj => by simp at hj⟩
      | false =>
        obtain ⟨b3, hb3, _⟩ := findTaskFromList_frame
          { s with host_cache := hcch, blacklist := b2 }
          ({ s with host_cache := hcch, blacklist := b2 } : SimpleJob).allPendingTasks host
        cases h3 : (findTaskFromList { s with host_cache := hcch, blacklist := b2 }
            ({ s with host_cache := hcch, blacklist := b2 } : SimpleJob).allPendingTasks host).1 with
        | some i =>
          obtain ⟨hmem, hlau, hfin⟩ := findTaskFromList_some _ _ host i h3
          refine ⟨⟨hcch, b3, by rw [show (!false) = true from rfl, if_pos rfl]; exact hb3, hcb⟩,
            fun j hj => ?_⟩
          rw [show (!false) = true from rfl, if_pos rfl] at hj
          dsimp only [] at hj
          cases hj
          exact ⟨hwf.2.2.2.2.1 i (by simpa using hmem), by simpa using hlau, by simpa using hfin⟩
        | none =>
          refine ⟨⟨hcch, b3, by rw [show (!false) = true from rfl, if_pos rfl]; exact hb3, hcb⟩,
            fun j hj => ?_⟩
          rw [show (!false) = true from rfl, if_pos rfl] at hj
          dsimp only [] at hj
          cases hj

theorem slaveOffer_pres (resolve : Resolver) (s : SimpleJob) (host : String)
    (cpus : Nat) (now : Int) (hwf : WF s) (hinv : CounterInv s) :
    WF (slaveOffer resolve s host cpus now).1 ∧
    CounterInv (slaveOffer resolve s host cpus now).1 := by
  obtain ⟨⟨hc, b, hfr, hcb⟩, hsome⟩ := findTask_spec resolve s host
    (decide (now - s.lastPreferredLaunchTime < LOCALITY_WAIT)) hwf
  obtain ⟨h1, h2, h3, h4, h5, h6, h7, h8⟩ := hwf
  obtain ⟨hi1, hi2⟩ := hinv
  unfold slaveOffer
  dsimp only []
  cases hft : (findTask resolve s host
      (decide (now - s.lastPreferredLaunchTime < LOCALITY_WAIT))).1 with
  | none =>
    rw [hfr]
    exact ⟨⟨h1, h2, h3, h4, h5, h6, h7, hcb⟩, hi1, hi2⟩
  | some i =>
    obtain ⟨hib, hlau, hfin⟩ := hsome i hft
    rw [hfr]
    constructor
    · refine ⟨by simpa using h1, h2, by simpa using h3, ?_, h5, h6, h7, hcb⟩
      intro p hp
      rcases List.mem_cons.mp hp with hv | hv
      · subst hv; exact hib
      · exact h4 p hv
    · constructor
      · show s.tasksLaunched + 1 = ((s.launched.set i true).count true : Int)
        rw [count_set_true s.launched i (by rw [h1]; exact hib) hlau]
        rw [hi1]
        push_cast
        ring
      · exact hi2

theorem taskLost_other_eq (s : SimpleJob) (tid tried status : Nat) (reason : Reason) (i : Nat)
    (h : List.lookup tid s.tidToIndex = some i)
    (hnf : ∀ uri, reason ≠ Reason.fetchFailed uri)
    (hnost : ¬ (status = TASK_FAILED ∨ status = TASK_LOST)) :
    taskLost s tid tried status reason =
      ({ s with launched := s.launched.set i false, tasksLaunched := s.tasksLaunched - 1 },
       if s.tasksLaunched = (s.numTasks : Int) then [Event.requestMoreResources] else []) := by
  unfold taskLost
  rw [h]
  cases reason with
  | fetchFailed uri => exact absurd rfl (hnf uri)
  | noReason =>
    dsimp only []
    rw [if_neg hnost]
  | otherReason m =>
    dsimp only []
    rw [if_neg hnost]

theorem WF_withStatus (s : SimpleJob) (i status : Nat) (hwf : WF s) :
    WF (withStatus s i status) := by
  obtain ⟨h1, h2, h3, h4, h5, h6, h7, h8⟩ := hwf
  exact ⟨h1, h2, by simpa [withStatus] using h3, h4, h5, h6, h7, h8⟩

theorem inv_withStatus (s : SimpleJob) (i status : Nat) (hinv : CounterInv s) :
    CounterInv (withStatus s i status) := hinv

theorem WF_withStatusLaunch (s : SimpleJob) (i status : Nat) (hwf : WF s) :
    WF (withStatusLaunch s i status) := by
  obtain ⟨h1, h2, h3, h4, h5, h6, h7, h8⟩ := hwf
  exact ⟨by simpa [withStatusLaunch] using h1, h2, by simpa [withStatusLaunch] using h3,
    h4, h5, h6, h7, h8⟩

theorem inv_withStatusLaunch (s : SimpleJob) (i status : Nat)
    (hl : s.launched.getD i false = false) (hi : i < s.launched.length)
    (hinv : CounterInv s) : CounterInv (withStatusLaunch s i status) := by
  obtain ⟨hi1, hi2⟩ := hinv
  constructor
  · show s.tasksLaunched + 1 = ((s.launched.set i true).count true : Int)
    rw [count_set_true s.launched i hi hl, hi1]
    push_cast
    ring
  · exact hi2

theorem WF_modifyTask (s : SimpleJob) (i : Nat) (f : Task → Task) (hwf : WF s) :
    WF (modifyTask s i f) := by
  obtain ⟨h1, h2, h3, h4, h5, h6, h7, h8⟩ := hwf
  exact ⟨h1, h2, by simpa [modifyTask] using h3, h4, h5, h6, h7, h8⟩

theorem inv_modifyTask (s : SimpleJob) (i : Nat) (f : Task → Task)
    (hinv : CounterInv s) : CounterInv (modifyTask s i f) := hinv

theorem taskFinished_pres (s : SimpleJob) (now : Int) (tid tried : Nat) (i : Nat)
    (h : List.lookup tid s.tidToIndex = some i) (hwf : WF s) (hinv : CounterInv s)
    (hfin : s.finished.getD i false = false) (hi : i < s.numTasks) :
    WF (taskFinished s now tid tried).1 ∧ CounterInv (taskFinished s now tid tried).1 := by
  obtain ⟨h1, h2, h3, h4, h5, h6, h7, h8⟩ := hwf
  obtain ⟨hi1, hi2⟩ := hinv
  rw [taskFinished_eq s now tid tried i h]
  refine ⟨⟨h1, by simpa using h2, by simpa using h3, h4, h5, h6, h7, h8⟩, hi1, ?_⟩
  show s.tasksFinished + 1 = (s.finished.set i true).count true
  rw [count_set_true s.finished i (by rw [h2]; exact hi) hfin, hi2]

theorem taskLost_pres (s : SimpleJob) (tid tried status : Nat) (reason : Reason) (i : Nat)
    (h : List.lookup tid s.tidToIndex = some i) (hwf : WF s) (hinv : CounterInv s)
    (hl : s.launched.getD i false = true) (hfin : s.finished.getD i false = false)
    (hi : i < s.numTasks) :
    WF (taskLost s tid tried status reason).1 ∧
    CounterInv (taskLost s tid tried status reason).1 := by
  obtain ⟨h1, h2, h3, h4, h5, h6, h7, h8⟩ := hwf
  obtain ⟨hi1, hi2⟩ := hinv
  have hcountL : s.tasksLaunched - 1 = ((s.launched.set i false).count true : Int) := by
    have := count_set_false s.launched i (by rw [h1]; exact hi) hl
    rw [hi1]
    omega
  cases reason with
  | fetchFailed uri =>
    rw [taskLost_fetch_eq s tid tried status uri i h]
    refine ⟨⟨by simpa using h1, by simpa using h2, h3, h4, h5, h6, h7, h8⟩, hcountL, ?_⟩
    show s.tasksFinished + 1 = (s.finished.set i true).count true
    rw [count_set_true s.finished i (by rw [h2]; exact hi) hfin, hi2]
  | noReason =>
    by_cases hst : status = TASK_FAILED ∨ status = TASK_LOST
    · rw [taskLost_failure_eq s tid tried status Reason.noReason i h (fun uri => by simp) hst]
      by_cases hnum : s.numFailures.getD i 0 + 1 > MAX_TASK_FAILURES
      · rw [if_pos hnum]
        exact ⟨⟨by simpa using h1, h2, h3, h4, h5, h6, h7, h8⟩, hcountL, hi2⟩
      · rw [if_neg hnum]
        exact ⟨⟨by simpa using h1, h2, h3, h4, h5, h6, h7, h8⟩, hcountL, hi2⟩
    · rw [taskLost_other_eq s tid tried status Reason.noReason i h (fun uri => by simp) hst]
      exact ⟨⟨by simpa using h1, h2, h3, h4, h5, h6, h7, h8⟩, hcountL, hi2⟩
  | otherReason m =>
    by_cases hst : status = TASK_FAILED ∨ status = TASK_LOST
    · rw [taskLost_failure_eq s tid tried status (Reason.otherReason m) i h (fun uri => by simp) hst]
      by_cases hnum : s.numFailures.getD i 0 + 1 > MAX_TASK_FAILURES
      · rw [if_pos hnum]
        exact ⟨⟨by simpa using h1, h2, h3, h4, h5, h6, h7, h8⟩, hcountL, hi2⟩
      · rw [if_neg hnum]
        exact ⟨⟨by simpa using h1, h2, h3, h4, h5, h6, h7, h8⟩, hcountL, hi2⟩
    · rw [taskLost_other_eq s tid tried status (Reason.otherReason m) i h (fun uri => by simp) hst]
      exact ⟨⟨by simpa using h1, h2, h3, h4, h5, h6, h7, h8⟩, hcountL, hi2⟩

theorem statusUpdate_pres (s : SimpleJob) (now : Int) (tid tried status : Nat)
    (reason : Reason) (hwf : WF s) (hinv : CounterInv s) :
    WF (statusUpdate s now tid tried status reason).1 ∧
    CounterInv (statusUpdate s now tid tried status reason).1 := by
  cases hlk : List.lookup tid s.tidToIndex with
  | none => rw [statusUpdate_unknown s now tid tried status reason hlk]; exact ⟨hwf, hinv⟩
  | some i =>
    have hi : i < s.numTasks := hwf.2.2.2.1 (tid, i) (lookup_mem _ tid i hlk)
    cases hfin : s.finished.getD i false with
    | true =>
      rw [statusUpdate_already_finished s now tid tried status reason i hlk hfin]
      exact ⟨hwf, hinv⟩
    | false =>
      by_cases hl : s.launched.getD i false = true
      · have e1 := statusUpdate_launched_eq s now tid tried status reason i hlk hfin hl
        have hwfb := WF_withStatus s i status hwf
        have hinvb := inv_withStatus s i status hinv
        have hlkb : List.lookup tid (withStatus s i status).tidToIndex = some i := hlk
        have hlb : (withStatus s i status).launched.getD i false = true := hl
        have hfinb : (withStatus s i status).finished.getD i false = false := hfin
        have hib : i < (withStatus s i status).numTasks := hi
        by_cases hs1 : status = TASK_FINISHED
        · rw [if_pos hs1] at e1
          rw [e1]
          obtain ⟨hw, hv⟩ := taskFinished_pres (withStatus s i status) now tid tried i
            hlkb hwfb hinvb hfinb hib
          exact ⟨WF_modifyTask _ i _ hw, inv_modifyTask _ i _ hv⟩
        · by_cases hs2 : status = TASK_LOST ∨ status = TASK_FAILED ∨ status = TASK_KILLED
          · rw [if_neg hs1, if_pos hs2] at e1
            rw [e1]
            obtain ⟨hw, hv⟩ := taskLost_pres (withStatus s i status) tid tried status reason i
              hlkb hwfb hinvb hlb hfinb hib
            exact ⟨WF_modifyTask _ i _ hw, inv_modifyTask _ i _ hv⟩
          · rw [if_neg hs1, if_neg hs2] at e1
            rw [e1]
            exact ⟨WF_modifyTask _ i _ hwfb, inv_modifyTask _ i _ hinvb⟩
      · have hl2 : s.launched.getD i false = false := by
          cases hv : s.launched.getD i false with
          | true => exact absurd hv hl
          | false => rfl
        have e1 := statusUpdate_unlaunched_eq s now tid tried status reason i hlk hfin hl2
        have hwfb := WF_withStatusLaunch s i status hwf
        have hinvb := inv_withStatusLaunch s i status hl2 (by rw [hwf.1]; exact hi) hinv
        have hlkb : List.lookup tid (withStatusLaunch s i status).tidToIndex = some i := hlk
        have hlb : (withStatusLaunch s i status).launched.getD i false = true := by
          show (s.launched.set i true).getD i false = true
          exact getD_set_self s.launched i true false (by rw [hwf.1]; exact hi)
        have hfinb : (withStatusLaunch s i status).finished.getD i false = false := hfin
        have hib : i < (withStatusLaunch s i status).numTasks := hi
        by_cases hs1 : status = TASK_FINISHED
        · rw [if_pos hs1] at e1
          rw [e1]
          obtain ⟨hw, hv⟩ := taskFinished_pres (withStatusLaunch s i status) now tid tried i
            hlkb hwfb hinvb hfinb hib
          exact ⟨WF_modifyTask _ i _ hw, inv_modifyTask _ i _ hv⟩
        · by_cases hs2 : status = TASK_LOST ∨ status = TASK_FAILED ∨ status = TASK_KILLED
          · rw [if_neg hs1, if_pos hs2] at e1
            rw [e1]
            obtain ⟨hw, hv⟩ := taskLost_pres (withStatusLaunch s i status) tid tried status reason i
              hlkb hwfb hinvb hlb hfinb hib
            exact ⟨WF_modifyTask _ i _ hw, inv_modifyTask _ i _ hv⟩
          · rw [if_neg hs1, if_neg hs2] at e1
            rw [e1]
            exact ⟨WF_modifyTask _ i _ hwfb, inv_modifyTask _ i _ hinvb⟩

/-- The launched-counter half of `CounterInv`, threaded through the two
passes of the timeout scan. -/
def Inv1 (t : SimpleJob) : Prop := t.tasksLaunched = (t.launched.count true : Int)

theorem pass1_fold_inv (now : Int) (l : List Nat) (s : SimpleJob)
    (hb : ∀ i ∈ l, i < s.launched.length) (h : Inv1 s) :
    Inv1 (l.foldl (pass1Step now) s) := by
  induction l generalizing s with
  | nil => exact h
  | cons i rest ih =>
    rw [List.foldl_cons]
    by_cases hc : (s.launched.getD i false && (s.tasks.getD i default).status == TASK_STARTING
        && decide ((s.tasks.getD i default).start + WAIT_FOR_RUNNING < now)) = true
    · have hstep : pass1Step now s i
          = { s with launched := s.launched.set i false, tasksLaunched := s.tasksLaunched - 1 } := by
        unfold pass1Step
        rw [if_pos hc]
      rw [hstep]
      apply ih
      · intro j hj
        simpa using hb j (List.mem_cons_of_mem _ hj)
      · show s.tasksLaunched - 1 = ((s.launched.set i false).count true : Int)
        have hltrue : s.launched.getD i false = true := by
          simp only [Bool.and_eq_true] at hc
          exact hc.1.1
        have := count_set_false s.launched i (hb i (List.mem_cons_self _ _)) hltrue
        rw [h]
        omega
    · have hstep : pass1Step now s i = s := by
        unfold pass1Step
        rw [if_neg hc]
      rw [hstep]
      exact ih s (fun j hj => hb j (List.mem_cons_of_mem _ hj)) h

theorem stragglerLoop_inv (now avg : Int) (cand : List (Int × Nat)) (s : SimpleJob)
    (h : Inv1 s)
    (hc : ∀ p ∈ cand, s.launched.getD p.2 false = true ∧ p.2 < s.launched.length)
    (hnd : (cand.map Prod.snd).Nodup) :
    Inv1 (stragglerLoop now avg cand s).1 := by
  induction cand generalizing s with
  | nil => exact h
  | cons p rest ih =>
    obtain ⟨st, idx⟩ := p
    simp only [stragglerLoop]
    obtain ⟨hlidx, hibound⟩ := hc (st, idx) (List.mem_cons_self _ _)
    have hndrest : (rest.map Prod.snd).Nodup := (List.nodup_cons.mp hnd).2
    have hidxnot : idx ∉ rest.map Prod.snd := (List.nodup_cons.mp hnd).1
    by_cases hcond : now - (s.tasks.getD idx default).start >
        avg * (((s.tasks.getD idx default).tried : Int) + 1) ∧
        now - (s.tasks.getD idx default).start > 30
    · rw [if_pos hcond]
      by_cases hb : (s.tasks.getD idx default).tried ≤ MAX_TASK_FAILURES
      · rw [if_pos hb]
        apply ih
        · show _ = ((((modifyTask s idx _).launched.set idx false).count true : Int))
          have := count_set_false s.launched idx hibound hlidx
          show s.tasksLaunched - 1 = (((s.launched.set idx false).count true : Int))
          rw [h]
          omega
        · intro q hq
          obtain ⟨hq1, hq2⟩ := hc q (List.mem_cons_of_mem _ hq)
          have hne : idx ≠ q.2 := by
            intro he
            exact hidxnot (he ▸ List.mem_map_of_mem Prod.snd hq)
          constructor
          · show ((s.launched.set idx false).getD q.2 false) = true
            rw [getD_set_ne s.launched false false hne]
            exact hq1
          · show q.2 < (s.launched.set idx false).length
            simpa using hq2
        · exact hndrest
      · rw [if_neg hb]
        exact ih _ h (fun q hq => hc q (List.mem_cons_of_mem _ hq)) hndrest
    · rw [if_neg hcond]
      exact h

theorem stragglerCandidates_map_snd (t : SimpleJob) :
    (stragglerCandidates t).map Prod.snd =
      (List.range t.tasks.length).filter
        (fun i => t.launched.getD i false && !(t.finished.getD i false)) := by
  unfold stragglerCandidates
  rw [List.map_map]
  rw [show (Prod.snd ∘ fun i => ((t.tasks.getD i default).start, i)) = id from funext fun i => rfl]
  rw [List.map_id]

theorem stragglerPhase_inv (now : Int) (t : SimpleJob) (h : Inv1 t)
    (hlen : t.tasks.length = t.launched.length) :
    Inv1 (if t.tasksFinished > t.numTasks / 3 then
      stragglerLoop now (taskEverageTime t) (List.insertionSort startIdxLe (stragglerCandidates t)) t
    else (t, [])).1 := by
  by_cases hp : t.tasksFinished > t.numTasks / 3
  · rw [if_pos hp]
    apply stragglerLoop_inv now (taskEverageTime t) _ t h
    · intro p hp2
      have hmem : p ∈ stragglerCandidates t :=
        (List.perm_insertionSort startIdxLe (stragglerCandidates t)).mem_iff.mp hp2
      unfold stragglerCandidates at hmem
      rw [List.mem_map] at hmem
      obtain ⟨i, hi, hpi⟩ := hmem
      rw [List.mem_filter] at hi
      obtain ⟨hir, hipred⟩ := hi
      simp only [Bool.and_eq_true] at hipred
      constructor
      · rw [show p.2 = i by rw [show p = ((t.tasks.getD i default).start, i) from hpi.symm]]
        exact hipred.1
      · rw [show p.2 = i by rw [show p = ((t.tasks.getD i default).start, i) from hpi.symm]]
        rw [List.mem_range] at hir
        rw [hlen] at hir
        exact hir
    · have hperm := (List.perm_insertionSort startIdxLe (stragglerCandidates t)).map Prod.snd
      rw [List.Perm.nodup_iff hperm, stragglerCandidates_map_snd]
      exact List.Nodup.filter _ (List.nodup_range _)
  · rw [if_neg hp]
    exact h

theorem check_task_timeout_pres (s : SimpleJob) (now : Int)
    (hwf : WF s) (hinv : CounterInv s) :
    WF (check_task_timeout s now).1 ∧ CounterInv (check_task_timeout s now).1 := by
  by_cases hrate : s.last_check + 5 > now
  · have heq : check_task_timeout s now = (s, false, []) := by
      unfold check_task_timeout
      rw [if_pos hrate]
    rw [heq]
    exact ⟨hwf, hinv⟩
  · obtain ⟨tk, l, tl, f, c, heq, hlen, htlen, _⟩ := check_task_timeout_frame s now hrate
    have hinv1 : Inv1 (check_task_timeout s now).1 := by
      unfold check_task_timeout
      rw [if_neg hrate]
      dsimp only []
      by_cases hrep : s.tasksLaunched ≠ (List.count true s.launched : Int)
      · rw [if_pos hrep]
        obtain ⟨l1, tl1, hp1, hlen1, _⟩ := timeoutPass1_frame now
          { s with last_check := now, tasksLaunched := (List.count true s.launched : Int) }
        apply stragglerPhase_inv
        · unfold timeoutPass1
          apply pass1_fold_inv
          · intro i hi
            show i < s.launched.length
            rw [List.mem_range] at hi
            rw [hwf.1]
            exact hi
          · show (List.count true s.launched : Int) = _
            rfl
        · rw [hp1]
          show s.tasks.length = l1.length
          rw [hlen1]
          rw [hwf.1, hwf.2.2.1]
      · rw [if_neg hrep]
        obtain ⟨l1, tl1, hp1, hlen1, _⟩ := timeoutPass1_frame now { s with last_check := now }
        apply stragglerPhase_inv
        · unfold timeoutPass1
          apply pass1_fold_inv
          · intro i hi
            show i < s.launched.length
            rw [List.mem_range] at hi
            rw [hwf.1]
            exact hi
          · show s.tasksLaunched = (List.count true s.launched : Int)
            exact Decidable.not_not.mp hrep
        · rw [hp1]
          show s.tasks.length = l1.length
          rw [hlen1]
          rw [hwf.1, hwf.2.2.1]
    constructor
    · obtain ⟨h1, h2, h3, h4, h5, h6, h7, h8⟩ := hwf
      rw [heq]
      refine ⟨?_, h2, ?_, h4, h5, h6, h7, h8⟩
      · show l.length = s.numTasks
        rw [hlen, h1]
      · show tk.length = s.numTasks
        rw [htlen, h3]
    · constructor
      · exact hinv1
      · rw [heq]
        exact hinv.2

theorem appendAt_bound (m : List (String × List Nat)) (h : String) (i N : Nat)
    (hm : ∀ kv ∈ m, ∀ j ∈ kv.2, j < N) (hi : i < N) :
    ∀ kv ∈ appendAt m h i, ∀ j ∈ kv.2, j < N := by
  induction m with
  | nil =>
    intro kv hkv j hj
    simp only [appendAt, List.mem_singleton] at hkv
    subst hkv
    simp only [List.mem_singleton] at hj
    subst hj
    exact hi
  | cons kv0 rest ih =>
    obtain ⟨k, v⟩ := kv0
    intro kv hkv j hj
    unfold appendAt at hkv
    by_cases hk : k = h
    · rw [if_pos hk] at hkv
      rcases List.mem_cons.mp hkv with hv | hv
      · subst hv
        rcases List.mem_append.mp hj with hw | hw
        · exact hm (k, v) (List.mem_cons_self _ _) j hw
        · rw [List.mem_singleton] at hw
          subst hw
          exact hi
      · exact hm kv (List.mem_cons_of_mem _ hv) j hj
    · rw [if_neg hk] at hkv
      rcases List.mem_cons.mp hkv with hv | hv
      · subst hv
        exact hm (k, v) (List.mem_cons_self _ _) j hj
      · exact ih (fun kv2 hkv2 => hm kv2 (List.mem_cons_of_mem _ hkv2)) kv hv j hj

theorem addPendingTask_pres (s : SimpleJob) (i : Nat) (hwf : WF s) (hinv : CounterInv s)
    (hi : i < s.numTasks) :
    WF (addPendingTask s i) ∧ CounterInv (addPendingTask s i) ∧
    (addPendingTask s i).numTasks = s.numTasks := by
  unfold addPendingTask
  dsimp only []
  by_cases hloc : (s.tasks.getD i default).prefs = []
  · rw [if_pos hloc]
    obtain ⟨h1, h2, h3, h4, h5, h6, h7, h8⟩ := hwf
    refine ⟨⟨h1, h2, h3, h4, ?_, ?_, h7, h8⟩, hinv, rfl⟩
    · intro j hj
      rcases List.mem_append.mp hj with hv | hv
      · exact h5 j hv
      · rw [List.mem_singleton] at hv; subst hv; exact hi
    · intro j hj
      rcases List.mem_append.mp hj with hv | hv
      · exact h6 j hv
      · rw [List.mem_singleton] at hv; subst hv; exact hi
  · rw [if_neg hloc]
    have hfold := foldl_inv
      (fun t => WF t ∧ CounterInv t ∧ t.numTasks = s.numTasks)
      (fun t host => { t with pendingTasksForHost := appendAt t.pendingTasksForHost host i })
      (s.tasks.getD i default).prefs
      (by
        rintro t host _ ⟨htwf, htinv, htnum⟩
        obtain ⟨g1, g2, g3, g4, g5, g6, g7, g8⟩ := htwf
        refine ⟨⟨g1, g2, g3, g4, g5, g6, ?_, g8⟩, htinv, htnum⟩
        exact appendAt_bound t.pendingTasksForHost host i t.numTasks g7 (htnum ▸ hi))
      s ⟨hwf, hinv, rfl⟩
    obtain ⟨hwf2, hinv2, hnum2⟩ := hfold
    obtain ⟨g1, g2, g3, g4, g5, g6, g7, g8⟩ := hwf2
    refine ⟨⟨g1, g2, g3, g4, ?_, g6, g7, g8⟩, hinv2, hnum2⟩
    intro j hj
    rcases List.mem_append.mp hj with hv | hv
    · exact g5 j hv
    · rw [List.mem_singleton] at hv; subst hv; rw [hnum2]; exact hi

theorem count_true_replicate_false (n : Nat) : (List.replicate n false).count true = 0 := by
  induction n with
  | zero => rfl
  | succ k ih => simp [List.replicate_succ, List.count_cons, ih]

theorem mkSimpleJob_pres (jobId : Nat) (now : Int) (tasks0 : List Task) :
    WF (mkSimpleJob jobId now tasks0) ∧ CounterInv (mkSimpleJob jobId now tasks0) := by
  unfold mkSimpleJob
  dsimp only []
  have hbase : WF
      ({ jobId := jobId
         jobStart := now
         tasks := tasks0.map (fun t => { t with tried := 0, used := 0 })
         launched := List.replicate (tasks0.map (fun t => { t with tried := 0, used := 0 })).length false
         finished := List.replicate (tasks0.map (fun t => { t with tried := 0, used := 0 })).length false
         numFailures := List.replicate (tasks0.map (fun t => { t with tried := 0, used := 0 })).length 0
         blacklist := List.replicate (tasks0.map (fun t => { t with tried := 0, used := 0 })).length []
         tidToIndex := []
         numTasks := (tasks0.map (fun t => { t with tried := 0, used := 0 })).length
         tasksLaunched := 0
         tasksFinished := 0
         total_used := 0
         lastPreferredLaunchTime := now
         pendingTasksForHost := []
         pendingTasksWithNoPrefs := []
         allPendingTasks := []
         failed := false
         causeOfFailure := ""
         last_check := 0
         host_cache := [] } : SimpleJob) := by
    refine ⟨by simp, by simp, rfl, ?_, ?_, ?_, ?_, ?_⟩ <;> intro p hp <;> simp at hp
  have hbinv : CounterInv
      ({ jobId := jobId
         jobStart := now
         tasks := tasks0.map (fun t => { t with tried := 0, used := 0 })
         launched := List.replicate (tasks0.map (fun t => { t with tried := 0, used := 0 })).length false
         finished := List.replicate (tasks0.map (fun t => { t with tried := 0, used := 0 })).length false
         numFailures := List.replicate (tasks0.map (fun t => { t with tried := 0, used := 0 })).length 0
         blacklist := List.replicate (tasks0.map (fun t => { t with tried := 0, used := 0 })).length []
         tidToIndex := []
         numTasks := (tasks0.map (fun t => { t with tried := 0, used := 0 })).length
         tasksLaunched := 0
         tasksFinished := 0
         total_used := 0
         lastPreferredLaunchTime := now
         pendingTasksForHost := []
         pendingTasksWithNoPrefs := []
         allPendingTasks := []
         failed := false
         causeOfFailure := ""
         last_check := 0
         host_cache := [] } : SimpleJob) := by
    constructor
    · show (0 : Int) = _
      rw [count_true_replicate_false]
      rfl
    · show 0 = _
      rw [count_true_replicate_false]
  have hfold := foldl_inv
    (fun t => WF t ∧ CounterInv t ∧
      t.numTasks = (tasks0.map (fun t => { t with tried := 0, used := 0 })).length)
    addPendingTask
    (List.range (tasks0.map (fun t => { t with tried := 0, used := 0 })).length)
    (by
      rintro t b hb ⟨htwf, htinv, htnum⟩
      rw [List.mem_range] at hb
      obtain ⟨hw, hv, hn⟩ := addPendingTask_pres t b htwf htinv (by rw [htnum]; exact hb)
      exact ⟨hw, hv, by rw [hn]; exact htnum⟩)
    _ ⟨hbase, hbinv, rfl⟩
  exact ⟨hfold.1, hfold.2.1⟩

theorem reachable_WF_CounterInv (s : SimpleJob) (h : Reachable s) :
    WF s ∧ CounterInv s := by
  induction h with
  | init jobId now tasks => exact mkSimpleJob_pres jobId now tasks
  | offer resolve host cpus now _ ih => exact slaveOffer_pres resolve _ host cpus now ih.1 ih.2
  | update now tid tried status reason _ ih =>
    exact statusUpdate_pres _ now tid tried status reason ih.1 ih.2
  | timeout now _ ih => exact check_task_timeout_pres _ now ih.1 ih.2

/-- C1: in every state reachable through the public API — after construction
and after every `slaveOffer`, `statusUpdate` or `check_task_timeout` call —
`tasksLaunched` equals the number of indices with `launched[i]` true and
`tasksFinished` equals the number of indices with `finished[i]` true. -/
theorem claim_C1_counter_invariant (s : SimpleJob) (h : Reachable s) : CounterInv s :=
  (reachable_WF_CounterInv s h).2

theorem claim_C1_counter_invariant_witness : CounterInv jobA3 :=
  claim_C1_counter_invariant jobA3
    (Reachable.offer noResolver "hostB" 1 3
      (Reachable.update 2 10 1 TASK_FINISHED Reason.noReason
        (Reachable.offer noResolver "hostA" 1 1
          (Reachable.init 1 0 [mkTask 10, mkTask 11]))))

/-! ### Claim C7: locality-ranked lookup -/

/-- Each value of a list in first-occurrence order: the order in which a
Python insertion-ordered dict enumerates the keys built up by the frequency
count of job.py lines 108-110. -/
def dedupFirst : List Nat → List Nat
  | [] => []
  | x :: xs => x :: dedupFirst (xs.filter (fun y => y ≠ x))
termination_by l => l.length
decreasing_by
  simp only [List.length_cons]
  exact Nat.lt_succ_of_le (List.length_filter_le _ _)

theorem beq_false_of_ne {a b : Nat} (h : a ≠ b) : (a == b) = false := by
  rw [Bool.eq_false_iff]
  intro hc
  exact h (by simpa using hc)

theorem dedupFirst_nil : dedupFirst [] = [] := by
  simp [dedupFirst]

theorem dedupFirst_cons (x : Nat) (xs : List Nat) :
    dedupFirst (x :: xs) = x :: dedupFirst (xs.filter (fun y => y ≠ x)) := by
  rw [dedupFirst]

theorem mem_dedupFirst_fuel (n : Nat) (i : Nat) : ∀ (l : List Nat), l.length ≤ n →
    (i ∈ dedupFirst l ↔ i ∈ l) := by
  induction n with
  | zero =>
    intro l hn
    rw [Nat.le_zero, List.length_eq_zero] at hn
    subst hn
    rw [dedupFirst_nil]
  | succ k ih =>
    intro l hn
    cases l with
    | nil => rw [dedupFirst_nil]
    | cons x xs =>
      rw [dedupFirst_cons]
      have hlen : (xs.filter (fun y => y ≠ x)).length ≤ k :=
        le_trans (List.length_filter_le _ xs) (by simpa using hn)
      constructor
      · intro h
        rcases List.mem_cons.mp h with hv | hv
        · subst hv; exact List.mem_cons_self _ _
        · have := (ih _ hlen).mp hv
          exact List.mem_cons_of_mem _ (List.mem_filter.mp this).1
      · intro h
        rcases List.mem_cons.mp h with hv | hv
        · subst hv; exact List.mem_cons_self _ _
        · by_cases hix : i = x
          · subst hix; exact List.mem_cons_self _ _
          · refine List.mem_cons_of_mem _ ((ih _ hlen).mpr ?_)
            rw [List.mem_filter]
            exact ⟨hv, by simpa using hix⟩

theorem mem_dedupFirst (l : List Nat) (i : Nat) : i ∈ dedupFirst l ↔ i ∈ l :=
  mem_dedupFirst_fuel l.length i l le_rfl

theorem nodup_dedupFirst_fuel (n : Nat) : ∀ (l : List Nat), l.length ≤ n →
    (dedupFirst l).Nodup := by
  induction n with
  | zero =>
    intro l hn
    rw [Nat.le_zero, List.length_eq_zero] at hn
    subst hn
    rw [dedupFirst_nil]
    exact List.nodup_nil
  | succ k ih =>
    intro l hn
    cases l with
    | nil => rw [dedupFirst_nil]; exact List.nodup_nil
    | cons x xs =>
      rw [dedupFirst_cons]
      have hlen : (xs.filter (fun y => y ≠ x)).length ≤ k :=
        le_trans (List.length_filter_le _ xs) (by simpa using hn)
      rw [List.nodup_cons]
      constructor
      · intro hx
        have hm := (mem_dedupFirst _ x).mp hx
        have := (List.mem_filter.mp hm).2
        simp at this
      · exact ih _ hlen

theorem nodup_dedupFirst (l : List Nat) : (dedupFirst l).Nodup :=
  nodup_dedupFirst_fuel l.length l le_rfl

theorem bump_keys (st : List (Nat × Nat)) (t : Nat) :
    (bump st t).map Prod.fst =
      if t ∈ st.map Prod.fst then st.map Prod.fst else st.map Prod.fst ++ [t] := by
  induction st with
  | nil => simp [bump]
  | cons kv rest ih =>
    obtain ⟨k, c⟩ := kv
    unfold bump
    by_cases hk : k = t
    · subst hk
      rw [if_pos rfl]
      simp
    · rw [if_neg hk]
      by_cases hmem : t ∈ rest.map Prod.fst
      · simp only [List.map_cons, ih, if_pos hmem]
        rw [if_pos (List.mem_cons_of_mem _ hmem)]
      · simp only [List.map_cons, ih, if_neg hmem]
        rw [if_neg (by
          intro hc
          rcases List.mem_cons.mp hc with hv | hv
          · exact hk hv.symm
          · exact hmem hv)]
        rfl

theorem lookup_bump_self (st : List (Nat × Nat)) (t : Nat) :
    List.lookup t (bump st t) = some ((List.lookup t st).getD 0 + 1) := by
  induction st with
  | nil => simp [bump, List.lookup]
  | cons kv rest ih =>
    obtain ⟨k, c⟩ := kv
    unfold bump
    by_cases hk : k = t
    · subst hk
      rw [if_pos rfl]
      simp [List.lookup]
    · rw [if_neg hk]
      have hbeq : (t == k) = false := beq_false_of_ne (fun hc => hk hc.symm)
      rw [List.lookup_cons, List.lookup_cons]
      simp only [hbeq]
      exact ih

theorem lookup_bump_ne (st : List (Nat × Nat)) (t k : Nat) (hk : k ≠ t) :
    List.lookup k (bump st t) = List.lookup k st := by
  induction st with
  | nil =>
    simp only [bump, List.lookup]
    rw [beq_false_of_ne hk]
  | cons kv rest ih =>
    obtain ⟨k2, c⟩ := kv
    unfold bump
    by_cases hk2 : k2 = t
    · subst hk2
      rw [if_pos rfl, List.lookup_cons, List.lookup_cons]
      rw [beq_false_of_ne hk]
    · rw [if_neg hk2, List.lookup_cons, List.lookup_cons]
      by_cases hkk : (k == k2) = true
      · simp only [hkk]
      · rw [Bool.eq_false_iff.mpr hkk]
        exact ih

theorem lookupD_foldl_bump (l : List Nat) (st : List (Nat × Nat)) (k : Nat) :
    (List.lookup k (l.foldl bump st)).getD 0 = (List.lookup k st).getD 0 + l.count k := by
  induction l generalizing st with
  | nil => simp
  | cons t rest ih =>
    rw [List.foldl_cons, ih]
    by_cases hk : k = t
    · subst hk
      rw [lookup_bump_self]
      simp only [Option.getD_some, List.count_cons]
      simp
      omega
    · rw [lookup_bump_ne st t k hk]
      have hbeq : (t == k) = false := beq_false_of_ne (fun hc => hk hc.symm)
      simp [List.count_cons, hbeq]

theorem lookup_of_mem_nodup (st : List (Nat × Nat)) (p : Nat × Nat)
    (hmem : p ∈ st) (hnd : (st.map Prod.fst).Nodup) :
    List.lookup p.1 st = some p.2 := by
  induction st with
  | nil => simp at hmem
  | cons kv rest ih =>
    obtain ⟨k, c⟩ := kv
    rcases List.mem_cons.mp hmem with hv | hv
    · subst hv
      simp [List.lookup]
    · rw [List.lookup_cons]
      rw [List.map_cons, List.nodup_cons] at hnd
      have hk : p.1 ≠ k := by
        intro he
        have hmm : p.1 ∈ rest.map Prod.fst := List.mem_map_of_mem Prod.fst hv
        rw [he] at hmm
        exact hnd.1 hmm
      rw [beq_false_of_ne hk]
      exact ih hv hnd.2

theorem keys_foldl_bump (l : List Nat) : ∀ (st : List (Nat × Nat)),
    (l.foldl bump st).map Prod.fst
      = st.map Prod.fst ++ dedupFirst (l.filter (fun y => y ∉ st.map Prod.fst)) := by
  induction l with
  | nil =>
    intro st
    simp [dedupFirst_nil]
  | cons t rest ih =>
    intro st
    rw [List.foldl_cons, ih (bump st t), bump_keys]
    by_cases hmem : t ∈ st.map Prod.fst
    · rw [if_pos hmem]
      have hstep : (t :: rest).filter (fun y => y ∉ st.map Prod.fst)
          = rest.filter (fun y => y ∉ st.map Prod.fst) := by
        rw [List.filter_cons]
        simp [hmem]
      rw [hstep]
    · rw [if_neg hmem]
      have hstep : (t :: rest).filter (fun y => y ∉ st.map Prod.fst)
          = t :: rest.filter (fun y => y ∉ st.map Prod.fst) := by
        rw [List.filter_cons]
        simp [hmem]
      rw [hstep, dedupFirst_cons, List.filter_filter]
      rw [List.append_assoc, List.singleton_append]
      have hpt : rest.filter (fun y => y ∉ st.map Prod.fst ++ [t])
          = rest.filter (fun a => (decide (a ≠ t)) && (decide (a ∉ st.map Prod.fst))) := by
        apply List.filter_congr
        intro y _
        by_cases h1 : y = t
        · subst h1
          simp [List.mem_append]
        · by_cases h2 : y ∈ st.map Prod.fst <;> simp [List.mem_append, h1, h2]
      rw [hpt]

theorem getPendingItems_spec (resolve : Resolver) (s : SimpleJob) (host : String)
    (items : List (Nat × Nat))
    (hitems : items.Perm ((hostIdentityTasks resolve s host).foldl bump [])) :
    (getPendingTasksSortedItems items).Nodup ∧
    (∀ i, i ∈ getPendingTasksSortedItems items ↔
      i ∈ hostIdentityTasks resolve s host) ∧
    (getPendingTasksSortedItems items).Pairwise
      (fun a b => (hostIdentityTasks resolve s host).count b
        ≤ (hostIdentityTasks resolve s host).count a) := by
  have hkeys : ((hostIdentityTasks resolve s host).foldl bump []).map Prod.fst
      = dedupFirst (hostIdentityTasks resolve s host) := by
    rw [keys_foldl_bump]
    rw [show (List.map Prod.fst ([] : List (Nat × Nat))) = [] from rfl]
    rw [List.nil_append]
    congr 1
    apply List.filter_eq_self.mpr
    intro a _
    simp
  have hnodupkeys : (((hostIdentityTasks resolve s host).foldl bump []).map Prod.fst).Nodup := by
    rw [hkeys]
    exact nodup_dedupFirst _
  have hvalst : ∀ p ∈ (hostIdentityTasks resolve s host).foldl bump [],
      p.2 = (hostIdentityTasks resolve s host).count p.1 := by
    intro p hp
    have hl := lookup_of_mem_nodup _ p hp hnodupkeys
    have hd := lookupD_foldl_bump (hostIdentityTasks resolve s host) [] p.1
    rw [hl] at hd
    simpa using hd
  have hval : ∀ p ∈ items, p.2 = (hostIdentityTasks resolve s host).count p.1 :=
    fun p hp => hvalst p (hitems.mem_iff.mp hp)
  have hperm := List.perm_insertionSort cntGe items
  have hpermst := hperm.trans hitems
  have hr : getPendingTasksSortedItems items
      = (List.insertionSort cntGe items).map Prod.fst := rfl
  have hmapperm := hpermst.map (Prod.fst (α := Nat) (β := Nat))
  refine ⟨?_, ?_, ?_⟩
  · rw [hr, List.Perm.nodup_iff hmapperm, hkeys]
    exact nodup_dedupFirst _
  · intro i
    rw [hr, hmapperm.mem_iff, hkeys, mem_dedupFirst]
  · rw [hr, List.pairwise_map]
    have hs := List.sorted_insertionSort cntGe items
    refine List.Pairwise.imp_of_mem ?_ hs
    intro p q hpmem hqmem hpq
    have hp2 := hval p (hperm.mem_iff.mp hpmem)
    have hq2 := hval q (hperm.mem_iff.mp hqmem)
    show (hostIdentityTasks resolve s host).count q.1 ≤ (hostIdentityTasks resolve s host).count p.1
    rw [← hp2, ← hq2]
    exact hpq

/-- Cache consistency: every memoized `host_cache` entry holds exactly what
`_getPendingTasksForHost` would compute.  This holds in every program run
because the preference registrations are immutable after construction and
`getPendingTasksForHost` only ever caches freshly computed values. -/
def CacheOK (resolve : Resolver) (s : SimpleJob) : Prop :=
  ∀ kv ∈ s.host_cache, kv.2 = getPendingTasksForHostCompute resolve s kv.1

/-- A resolver under which host `H` has canonical name `h1` and alias `h2`,
and every other host resolves to itself. -/
def aliasResolver : Resolver :=
  fun h => if h = "H" then ("h1", ["h2"], []) else (h, [], [])

/-- Three tasks whose preferred locations overlap on hosts h1 and h2. -/
def jobE : SimpleJob :=
  mkSimpleJob 6 0
    [{ mkTask 60 with prefs := ["h1", "h2"] },
     { mkTask 61 with prefs := ["h2"] },
     { mkTask 62 with prefs := ["h1"] }]

/-- C7 counterexample, refuting the tie-break clause ("indices with equal
counts keep their original registration order"): for `jobE` offered host `H`
(identities h1 and h2) the registrations concatenate to `[0, 2, 0, 1]`, so
indices 1 and 2 both have count one and index 2 is registered before
index 1.  The frequency dict `st` holds the bindings 0 ↦ 2, 2 ↦ 1 and
1 ↦ 1, and `st.items()` enumerates a CPython 2 dict in hash/slot order:
for the small integer keys 0, 1, 2 that is `[(0, 2), (1, 1), (2, 1)]`, a
permutation of the bindings that differs from first-insertion order.
Stably sorting that enumeration by descending count returns `[0, 1, 2]`,
which lists the equal-count indices 1 and 2 in the opposite of their
registration order. -/
theorem claim_C7_counterexample :
    hostIdentityTasks aliasResolver jobE "H" = [0, 2, 0, 1] ∧
    (hostIdentityTasks aliasResolver jobE "H").count 1
      = (hostIdentityTasks aliasResolver jobE "H").count 2 ∧
    (hostIdentityTasks aliasResolver jobE "H").indexOf 2
      < (hostIdentityTasks aliasResolver jobE "H").indexOf 1 ∧
    List.Perm [(0, 2), (1, 1), (2, 1)]
      ((hostIdentityTasks aliasResolver jobE "H").foldl bump []) ∧
    getPendingTasksSortedItems [(0, 2), (1, 1), (2, 1)] = [0, 1, 2] ∧
    [0, 1, 2].indexOf 1 < [0, 1, 2].indexOf 2 := by
  decide

/-- C7, corrected: for every host, `getPendingTasksForHost` returns the
stable descending-count sort of some enumeration of the frequency dict's
bindings, and for EVERY enumeration of those bindings (CPython 2 iterates
the dict in hash/slot order, which the source does not determine) the
sorted result contains exactly the task indices registered under the
host's canonical name, aliases and addresses — each exactly once — ordered
by descending count of identities under which the index was registered.
No tie-break order among equal-count indices is guaranteed. -/
theorem claim_C7_amended_locality_ranked_lookup (resolve : Resolver) (s : SimpleJob)
    (host : String) (items : List (Nat × Nat))
    (hitems : items.Perm ((hostIdentityTasks resolve s host).foldl bump []))
    (hcache : CacheOK resolve s) :
    (∃ its : List (Nat × Nat),
        its.Perm ((hostIdentityTasks resolve s host).foldl bump []) ∧
        (getPendingTasksForHost resolve s host).1 = getPendingTasksSortedItems its) ∧
    (getPendingTasksSortedItems items).Nodup ∧
    (∀ i, i ∈ getPendingTasksSortedItems items ↔
      i ∈ hostIdentityTasks resolve s host) ∧
    (getPendingTasksSortedItems items).Pairwise
      (fun a b => (hostIdentityTasks resolve s host).count b
        ≤ (hostIdentityTasks resolve s host).count a) := by
  have hred : (getPendingTasksForHost resolve s host).1
      = getPendingTasksForHostCompute resolve s host := by
    unfold getPendingTasksForHost
    cases hlk : List.lookup host s.host_cache with
    | some v =>
      have := hcache (host, v) (lookup_mem_str _ host v hlk)
      simpa using this
    | none => rfl
  obtain ⟨h1, h2, h3⟩ := getPendingItems_spec resolve s host items hitems
  exact ⟨⟨(hostIdentityTasks resolve s host).foldl bump [], List.Perm.refl _, hred⟩, h1, h2, h3⟩

theorem claim_C7_amended_locality_ranked_lookup_witness :
    (∃ its : List (Nat × Nat),
        its.Perm ((hostIdentityTasks aliasResolver jobE "H").foldl bump []) ∧
        (getPendingTasksForHost aliasResolver jobE "H").1
          = getPendingTasksSortedItems its) ∧
    (getPendingTasksSortedItems [(0, 2), (1, 1), (2, 1)]).Nodup ∧
    (∀ i, i ∈ getPendingTasksSortedItems [(0, 2), (1, 1), (2, 1)] ↔
      i ∈ hostIdentityTasks aliasResolver jobE "H") ∧
    (getPendingTasksSortedItems [(0, 2), (1, 1), (2, 1)]).Pairwise
      (fun a b => (hostIdentityTasks aliasResolver jobE "H").count b
        ≤ (hostIdentityTasks aliasResolver jobE "H").count a) :=
  claim_C7_amended_locality_ranked_lookup aliasResolver jobE "H"
    [(0, 2), (1, 1), (2, 1)]
    (by decide)
    (by
      intro kv hkv
      rw [show jobE.host_cache = [] from by decide] at hkv
      exact absurd hkv (List.not_mem_nil kv))

end Dpark
